import Mathlib

/-!
Verification of the one-time access link (OTAL) subsystem of the
target-survey-system backend.

The Go sources embedded here:
- internal/service/encryption.go  (token codec: AES-256-GCM over JSON, base64url)
- internal/model              (OneLink record, IsExpired / IsValid)
- internal/repository         (OneLinkRepository: MarkAsUsed, MarkAsAccessed)
- internal/service/share.go   (GenerateShareLink, ValidateAndGetSurvey)
- internal/service/response.go (SubmitResponse)
- internal/cache              (status cache, distributed lock)

Conventions: machine integers are Nat / Int; bytes are Nat with an explicit
validity predicate (< 256); times are Int nanoseconds since the epoch, with
Go Time.Unix() modelled as division by 10^9 (all concrete times used are
nonnegative, where every division convention agrees); fallible operations
return Option / Except.  External collaborators (Redis, MySQL, the Go
standard library) are modelled at the granularity of their documented
contracts, as explicit inputs of each service function.
-/

namespace SurveyOTAL

/-! ## Bytes -/

/-- A byte is a Nat that is < 256.  Lists of bytes carry this as a side
predicate. -/
def bytesOK (bs : List Nat) : Bool := bs.all (fun b => b < 256)

theorem bytesOK_append {xs ys : List Nat} (hx : bytesOK xs = true) (hy : bytesOK ys = true) :
    bytesOK (xs ++ ys) = true := by
  simp only [bytesOK, List.all_append, Bool.and_eq_true] at *
  exact ⟨hx, hy⟩

theorem bytesOK_mem {bs : List Nat} (h : bytesOK bs = true) {b : Nat} (hb : b ∈ bs) : b < 256 := by
  simp only [bytesOK, List.all_eq_true, decide_eq_true_eq] at h
  exact h b hb

/-! ## base64url (model of Go encoding/base64, URLEncoding)

Go's URLEncoding uses the alphabet A-Z a-z 0-9 - _ with mandatory
padding.  We model strings as lists of character codes.  The decoder is
non-strict about unused padding bits (as Go's is) but rejects characters
outside the alphabet, incomplete groups and data after a padded group. -/

/-- Character of the URL-safe base64 alphabet for a 6-bit index. -/
def b64Char (n : Nat) : Nat :=
  if n < 26 then 65 + n
  else if n < 52 then 97 + (n - 26)
  else if n < 62 then 48 + (n - 52)
  else if n = 62 then 45
  else 95

/-- Inverse lookup of the URL-safe base64 alphabet. -/
def b64Index (c : Nat) : Option Nat :=
  if 65 ≤ c ∧ c ≤ 90 then some (c - 65)
  else if 97 ≤ c ∧ c ≤ 122 then some (26 + (c - 97))
  else if 48 ≤ c ∧ c ≤ 57 then some (52 + (c - 48))
  else if c = 45 then some 62
  else if c = 95 then some 63
  else none

theorem b64Index_b64Char : ∀ n, n < 64 → b64Index (b64Char n) = some n := by decide

theorem b64Char_ne_pad (n : Nat) : b64Char n ≠ 61 := by
  unfold b64Char
  split <;> try omega
  split <;> try omega
  split <;> try omega
  split <;> omega

/-- Encoder: bytes to base64url character codes, three bytes per group,
with '=' (code 61) padding on the final partial group. -/
def b64EncodeGroups : List Nat → List Nat
  | [] => []
  | [a] => [b64Char (a / 4), b64Char (a % 4 * 16), 61, 61]
  | [a, b] => [b64Char (a / 4), b64Char (a % 4 * 16 + b / 16), b64Char (b % 16 * 4), 61]
  | a :: b :: c :: rest =>
      b64Char (a / 4) :: b64Char (a % 4 * 16 + b / 16) :: b64Char (b % 16 * 4 + c / 64) ::
        b64Char (c % 64) :: b64EncodeGroups rest

/-- Decoder: base64url character codes back to bytes.  Fails (none) on
characters outside the alphabet, on a group that is not 4 characters,
and on data following a padded group. -/
def b64DecodeGroups : List Nat → Option (List Nat)
  | [] => some []
  | c1 :: c2 :: c3 :: c4 :: rest =>
    match b64Index c1, b64Index c2 with
    | some n1, some n2 =>
      if c3 = 61 then
        if c4 = 61 ∧ rest = [] then some [n1 * 4 + n2 / 16] else none
      else
        match b64Index c3 with
        | some n3 =>
          if c4 = 61 then
            if rest = [] then some [n1 * 4 + n2 / 16, n2 % 16 * 16 + n3 / 4] else none
          else
            match b64Index c4 with
            | some n4 =>
              (b64DecodeGroups rest).map
                (fun bs => (n1 * 4 + n2 / 16) :: (n2 % 16 * 16 + n3 / 4) :: (n3 % 4 * 64 + n4) :: bs)
            | none => none
        | none => none
    | _, _ => none
  | _ => none

theorem b64_roundtrip : ∀ bs : List Nat, bytesOK bs = true →
    b64DecodeGroups (b64EncodeGroups bs) = some bs
  | [], _ => rfl
  | [a], h => by
    have ha : a < 256 := bytesOK_mem h (by simp)
    have h1 : b64Index (b64Char (a / 4)) = some (a / 4) := b64Index_b64Char _ (by omega)
    have h2 : b64Index (b64Char (a % 4 * 16)) = some (a % 4 * 16) := b64Index_b64Char _ (by omega)
    show b64DecodeGroups [b64Char (a / 4), b64Char (a % 4 * 16), 61, 61] = some [a]
    simp [b64DecodeGroups, h1, h2]
    omega
  | [a, b], h => by
    have ha : a < 256 := bytesOK_mem h (by simp)
    have hb : b < 256 := bytesOK_mem h (by simp)
    have h1 : b64Index (b64Char (a / 4)) = some (a / 4) := b64Index_b64Char _ (by omega)
    have h2 : b64Index (b64Char (a % 4 * 16 + b / 16)) = some (a % 4 * 16 + b / 16) :=
      b64Index_b64Char _ (by omega)
    have h3 : b64Index (b64Char (b % 16 * 4)) = some (b % 16 * 4) := b64Index_b64Char _ (by omega)
    show b64DecodeGroups
        [b64Char (a / 4), b64Char (a % 4 * 16 + b / 16), b64Char (b % 16 * 4), 61] = some [a, b]
    simp [b64DecodeGroups, h1, h2, h3, b64Char_ne_pad]
    omega
  | a :: b :: c :: rest, h => by
    have ha : a < 256 := bytesOK_mem h (by simp)
    have hb : b < 256 := bytesOK_mem h (by simp)
    have hc : c < 256 := bytesOK_mem h (by simp)
    have hrest : bytesOK rest = true := by
      simp only [bytesOK, List.all_cons, Bool.and_eq_true] at h
      exact h.2.2.2
    have ih := b64_roundtrip rest hrest
    have h1 : b64Index (b64Char (a / 4)) = some (a / 4) := b64Index_b64Char _ (by omega)
    have h2 : b64Index (b64Char (a % 4 * 16 + b / 16)) = some (a % 4 * 16 + b / 16) :=
      b64Index_b64Char _ (by omega)
    have h3 : b64Index (b64Char (b % 16 * 4 + c / 64)) = some (b % 16 * 4 + c / 64) :=
      b64Index_b64Char _ (by omega)
    have h4 : b64Index (b64Char (c % 64)) = some (c % 64) := b64Index_b64Char _ (by omega)
    show b64DecodeGroups
        (b64Char (a / 4) :: b64Char (a % 4 * 16 + b / 16) :: b64Char (b % 16 * 4 + c / 64) ::
          b64Char (c % 64) :: b64EncodeGroups rest) = some (a :: b :: c :: rest)
    simp [b64DecodeGroups, h1, h2, h3, h4, b64Char_ne_pad, ih]
    omega

/-! ## AES-256-GCM (model of Go crypto/cipher AEAD used by encryption.go)

The cipher itself is an external collaborator (Go standard library); we
model it by its documented contract: a keystream cipher (encryption and
decryption are the same byte-wise XOR) plus an authentication tag over
the ciphertext, with Seal producing ciphertext ++ tag and Open checking
the tag (and the minimal length) before releasing any plaintext.  The
nonce ("initialization value") and tag sizes are GCM's: 12 and 16. -/

def gcmNonceSize : Nat := 12

def gcmTagSize : Nat := 16

/-- Byte mixer used by the cipher model; always returns a byte. -/
def mix (xs : List Nat) : Nat := xs.foldl (fun a b => (a * 131 + b + 17) % 256) 7

theorem mix_lt (xs : List Nat) : mix xs < 256 := by
  unfold mix
  induction xs using List.reverseRecOn with
  | nil => decide
  | append_singleton ys y _ =>
    rw [List.foldl_append]
    exact Nat.mod_lt _ (by omega)

/-- Keystream byte at position i for a given key and nonce. -/
def keystreamByte (key nonce : List Nat) (i : Nat) : Nat :=
  mix (key ++ nonce ++ [i % 256, i / 256 % 256, i / 65536 % 256])

/-- XOR of the plaintext with the keystream, starting at position i.
Applying it twice with the same arguments restores the input. -/
def ctrXor (key nonce : List Nat) : Nat → List Nat → List Nat
  | _, [] => []
  | i, b :: bs => (b ^^^ keystreamByte key nonce i) :: ctrXor key nonce (i + 1) bs

theorem ctrXor_ctrXor (key nonce : List Nat) :
    ∀ (i : Nat) (bs : List Nat), ctrXor key nonce i (ctrXor key nonce i bs) = bs
  | _, [] => rfl
  | i, b :: bs => by
    simp only [ctrXor, Nat.xor_cancel_right, List.cons.injEq, true_and]
    exact ctrXor_ctrXor key nonce (i + 1) bs

theorem ctrXor_length (key nonce : List Nat) :
    ∀ (i : Nat) (bs : List Nat), (ctrXor key nonce i bs).length = bs.length
  | _, [] => rfl
  | i, _ :: bs => by
    simp only [ctrXor, List.length_cons, ctrXor_length key nonce (i + 1) bs]

theorem ctrXor_bytesOK (key nonce : List Nat) :
    ∀ (i : Nat) (bs : List Nat), bytesOK bs = true → bytesOK (ctrXor key nonce i bs) = true
  | _, [], _ => rfl
  | i, b :: bs, h => by
    simp only [bytesOK, ctrXor, List.all_cons, Bool.and_eq_true, decide_eq_true_eq] at h ⊢
    refine ⟨?_, ctrXor_bytesOK key nonce (i + 1) bs h.2⟩
    have hb : b < 2 ^ 8 := h.1
    have hk : keystreamByte key nonce i < 2 ^ 8 := mix_lt _
    have := Nat.xor_lt_two_pow hb hk
    omega

/-- Authentication tag over a ciphertext (model). -/
def gcmTag (key nonce ct : List Nat) : List Nat :=
  (List.range gcmTagSize).map (fun i => mix (key ++ nonce ++ ct ++ [i]))

theorem gcmTag_length (key nonce ct : List Nat) : (gcmTag key nonce ct).length = gcmTagSize := by
  simp [gcmTag]

theorem gcmTag_bytesOK (key nonce ct : List Nat) : bytesOK (gcmTag key nonce ct) = true := by
  simp only [bytesOK, gcmTag, List.all_eq_true, List.mem_map, decide_eq_true_eq]
  rintro x ⟨i, -, rfl⟩
  exact mix_lt _

/-- Model of gcm.Seal(nil-prefix): encrypt then append the tag. -/
def gcmSeal (key nonce pt : List Nat) : List Nat :=
  ctrXor key nonce 0 pt ++ gcmTag key nonce (ctrXor key nonce 0 pt)

/-- Model of gcm.Open: reject anything shorter than the tag, recompute and
compare the tag, and only on success decrypt; on failure nothing is
returned. -/
def gcmOpen (key nonce data : List Nat) : Option (List Nat) :=
  if data.length < gcmTagSize then none
  else
    let ct := data.take (data.length - gcmTagSize)
    let tag := data.drop (data.length - gcmTagSize)
    if tag = gcmTag key nonce ct then some (ctrXor key nonce 0 ct) else none

theorem gcmSeal_length (key nonce pt : List Nat) :
    (gcmSeal key nonce pt).length = pt.length + gcmTagSize := by
  simp [gcmSeal, ctrXor_length, gcmTag_length]

theorem gcmSeal_bytesOK (key nonce pt : List Nat) (h : bytesOK pt = true) :
    bytesOK (gcmSeal key nonce pt) = true :=
  bytesOK_append (ctrXor_bytesOK key nonce 0 pt h) (gcmTag_bytesOK key nonce _)

theorem gcmOpen_gcmSeal (key nonce pt : List Nat) :
    gcmOpen key nonce (gcmSeal key nonce pt) = some pt := by
  unfold gcmOpen gcmSeal
  have hlen : (ctrXor key nonce 0 pt ++ gcmTag key nonce (ctrXor key nonce 0 pt)).length
      = pt.length + gcmTagSize := gcmSeal_length key nonce pt
  rw [hlen]
  rw [if_neg (by omega)]
  have hct : pt.length + gcmTagSize - gcmTagSize = (ctrXor key nonce 0 pt).length := by
    rw [ctrXor_length]; omega
  rw [hct, List.take_left, List.drop_left, if_pos rfl, ctrXor_ctrXor]

/-! ## Token payload and its serialization

TokenData mirrors service.TokenData: survey id, prefill map (string keys
to JSON scalar/array values), expiry as Unix seconds, and a per-issuance
unique id.  Go's encoding/json (an external collaborator) is modelled as
a canonical injective byte serialization together with a parser that is
total on its image and rejects trailing data, matching json.Marshal /
json.Unmarshal's round-trip contract on JSON-native values.  Strings are
lists of byte values; maps are association lists. -/

/-- A JSON value as storable in the prefill map (map key to
scalar-or-array value). -/
inductive JValue where
  | str (s : List Nat)
  | num (n : Int)
  | boolean (b : Bool)
  | null
  | arr (elems : List JValue)

mutual

/-- Boolean equality on JValue (decidable equality, written by hand
because of the nested list). -/
def jvalEq : JValue → JValue → Bool
  | .str a, .str b => a == b
  | .num a, .num b => a == b
  | .boolean a, .boolean b => a == b
  | .null, .null => true
  | .arr xs, .arr ys => jvalListEq xs ys
  | _, _ => false

def jvalListEq : List JValue → List JValue → Bool
  | [], [] => true
  | x :: xs, y :: ys => jvalEq x y && jvalListEq xs ys
  | _, _ => false

end

mutual

theorem jvalEq_iff : ∀ a b : JValue, jvalEq a b = true ↔ a = b
  | .str a, .str b => by simp [jvalEq]
  | .str _, .num _ | .str _, .boolean _ | .str _, .null | .str _, .arr _ => by simp [jvalEq]
  | .num _, .str _ => by simp [jvalEq]
  | .num a, .num b => by simp [jvalEq]
  | .num _, .boolean _ | .num _, .null | .num _, .arr _ => by simp [jvalEq]
  | .boolean _, .str _ | .boolean _, .num _ => by simp [jvalEq]
  | .boolean a, .boolean b => by simp [jvalEq]
  | .boolean _, .null | .boolean _, .arr _ => by simp [jvalEq]
  | .null, .str _ | .null, .num _ | .null, .boolean _ => by simp [jvalEq]
  | .null, .null => by simp [jvalEq]
  | .null, .arr _ => by simp [jvalEq]
  | .arr _, .str _ | .arr _, .num _ | .arr _, .boolean _ | .arr _, .null => by simp [jvalEq]
  | .arr xs, .arr ys => by
    simp only [jvalEq, jvalListEq_iff xs ys, JValue.arr.injEq]

theorem jvalListEq_iff : ∀ xs ys : List JValue, jvalListEq xs ys = true ↔ xs = ys
  | [], [] => by simp [jvalListEq]
  | [], _ :: _ => by simp [jvalListEq]
  | _ :: _, [] => by simp [jvalListEq]
  | x :: xs, y :: ys => by
    simp only [jvalListEq, Bool.and_eq_true, jvalEq_iff x y, jvalListEq_iff xs ys,
      List.cons.injEq]

end

instance : DecidableEq JValue := fun a b => decidable_of_iff _ (jvalEq_iff a b)

/-- The payload sealed inside a token (service.TokenData). -/
structure TokenData where
  surveyID : Nat
  prefillData : List (List Nat × JValue)
  expiresAt : Int
  uniqueID : List Nat
deriving DecidableEq

/-- Little-endian base-256 digits, with explicit fuel so that the kernel
can evaluate it; natDigits uses the number itself as (ample) fuel. -/
def natDigitsF : Nat → Nat → List Nat
  | 0, _ => []
  | fuel + 1, n => if n = 0 then [] else n % 256 :: natDigitsF fuel (n / 256)

def natDigits (n : Nat) : List Nat := natDigitsF n n

def natOfDigits : List Nat → Nat
  | [] => 0
  | d :: ds => d + 256 * natOfDigits ds

theorem natDigitsF_spec : ∀ fuel n, n ≤ fuel → natOfDigits (natDigitsF fuel n) = n
  | 0, n, h => by
    have : n = 0 := by omega
    simp [this, natDigitsF, natOfDigits]
  | fuel + 1, n, h => by
    by_cases h0 : n = 0
    · simp [h0, natDigitsF, natOfDigits]
    · have hdiv : n / 256 ≤ fuel := by
        have := Nat.div_lt_self (by omega : 0 < n) (by omega : 1 < 256)
        omega
      simp only [natDigitsF, if_neg h0, natOfDigits, natDigitsF_spec fuel (n / 256) hdiv]
      omega

theorem natOfDigits_natDigits (n : Nat) : natOfDigits (natDigits n) = n :=
  natDigitsF_spec n n le_rfl

theorem natDigitsF_bytesOK : ∀ fuel n, bytesOK (natDigitsF fuel n) = true
  | 0, _ => rfl
  | fuel + 1, n => by
    by_cases h0 : n = 0
    · simp [h0, natDigitsF, bytesOK]
    · simp only [natDigitsF, if_neg h0, bytesOK, List.all_cons, Bool.and_eq_true,
        decide_eq_true_eq]
      exact ⟨Nat.mod_lt _ (by omega), natDigitsF_bytesOK fuel (n / 256)⟩

theorem natDigitsF_length : ∀ fuel n k, n < 256 ^ k → (natDigitsF fuel n).length ≤ k
  | 0, _, _, _ => by simp [natDigitsF]
  | fuel + 1, n, k, h => by
    by_cases h0 : n = 0
    · simp [h0, natDigitsF]
    · have hk : k ≠ 0 := by
        rintro rfl
        simp at h
        omega
      obtain ⟨k', rfl⟩ : ∃ k', k = k' + 1 := ⟨k - 1, by omega⟩
      have hdiv : n / 256 < 256 ^ k' := by
        rw [Nat.div_lt_iff_lt_mul (by omega)]
        calc n < 256 ^ (k' + 1) := h
        _ = 256 ^ k' * 256 := by ring
      simp only [natDigitsF, if_neg h0, List.length_cons]
      have := natDigitsF_length fuel (n / 256) k' hdiv
      omega

/-- Length-prefixed base-256 encoding of a Nat. -/
def natBytes (n : Nat) : List Nat := (natDigits n).length :: natDigits n

/-- Sign-then-magnitude encoding of an Int. -/
def intBytes (i : Int) : List Nat :=
  if 0 ≤ i then 0 :: natBytes i.toNat else 1 :: natBytes (-i).toNat

/-- Length-prefixed string (byte list) encoding. -/
def strBytes (s : List Nat) : List Nat := natBytes s.length ++ s

mutual

/-- Serialized JSON value: a tag byte followed by the payload; arrays are
written as marker-prefixed elements closed by a 0 marker. -/
def jvalBytes : JValue → List Nat
  | .str s => 0 :: strBytes s
  | .num n => 1 :: intBytes n
  | .boolean b => 2 :: (if b then [1] else [0])
  | .null => [3]
  | .arr xs => 4 :: arrBytes xs

/-- Elements of an array, each preceded by a 1 marker, closed by 0. -/
def arrBytes : List JValue → List Nat
  | [] => [0]
  | v :: vs => 1 :: (jvalBytes v ++ arrBytes vs)

end

/-- Prefill entries (key, value), each preceded by a 1 marker, closed
by 0. -/
def prefillBytes : List (List Nat × JValue) → List Nat
  | [] => [0]
  | (k, v) :: rest => 1 :: (strBytes k ++ jvalBytes v ++ prefillBytes rest)

/-- Serialized TokenData (model of json.Marshal on service.TokenData). -/
def tokenBytes (d : TokenData) : List Nat :=
  natBytes d.surveyID ++ intBytes d.expiresAt ++ strBytes d.uniqueID ++
    prefillBytes d.prefillData

/-! ### Parsing -/

def readByte : List Nat → Option (Nat × List Nat)
  | [] => none
  | b :: rest => some (b, rest)

def readChunk (k : Nat) (s : List Nat) : Option (List Nat × List Nat) :=
  if s.length < k then none else some (s.take k, s.drop k)

def readNat (s : List Nat) : Option (Nat × List Nat) :=
  match readByte s with
  | none => none
  | some (len, s1) =>
    match readChunk len s1 with
    | none => none
    | some (ds, s2) => some (natOfDigits ds, s2)

def readInt (s : List Nat) : Option (Int × List Nat) :=
  match readByte s with
  | none => none
  | some (sign, s1) =>
    match readNat s1 with
    | none => none
    | some (n, s2) =>
      if sign = 0 then some ((n : Int), s2)
      else if sign = 1 then some (-(n : Int), s2)
      else none

def readStr (s : List Nat) : Option (List Nat × List Nat) :=
  match readNat s with
  | none => none
  | some (n, s1) => readChunk n s1

mutual

def parseJVal : Nat → List Nat → Option (JValue × List Nat)
  | 0, _ => none
  | fuel + 1, s =>
    match readByte s with
    | none => none
    | some (tag, s1) =>
      if tag = 0 then
        match readStr s1 with
        | none => none
        | some (x, s2) => some (.str x, s2)
      else if tag = 1 then
        match readInt s1 with
        | none => none
        | some (n, s2) => some (.num n, s2)
      else if tag = 2 then
        match readByte s1 with
        | none => none
        | some (b, s2) =>
          if b = 0 then some (.boolean false, s2)
          else if b = 1 then some (.boolean true, s2)
          else none
      else if tag = 3 then some (.null, s1)
      else if tag = 4 then
        match parseArr fuel s1 with
        | none => none
        | some (xs, s2) => some (.arr xs, s2)
      else none

def parseArr : Nat → List Nat → Option (List JValue × List Nat)
  | 0, _ => none
  | fuel + 1, s =>
    match readByte s with
    | none => none
    | some (marker, s1) =>
      if marker = 0 then some ([], s1)
      else if marker = 1 then
        match parseJVal fuel s1 with
        | none => none
        | some (v, s2) =>
          match parseArr fuel s2 with
          | none => none
          | some (vs, s3) => some (v :: vs, s3)
      else none

end

def parsePrefill : Nat → List Nat → Option (List (List Nat × JValue) × List Nat)
  | 0, _ => none
  | fuel + 1, s =>
    match readByte s with
    | none => none
    | some (marker, s1) =>
      if marker = 0 then some ([], s1)
      else if marker = 1 then
        match readStr s1 with
        | none => none
        | some (k, s2) =>
          match parseJVal fuel s2 with
          | none => none
          | some (v, s3) =>
            match parsePrefill fuel s3 with
            | none => none
            | some (rest, s4) => some ((k, v) :: rest, s4)
      else none

/-- Parse of a serialized TokenData (model of json.Unmarshal into
service.TokenData); trailing bytes are an error. -/
def parseTokenData (s : List Nat) : Option TokenData :=
  match readNat s with
  | none => none
  | some (sid, s1) =>
    match readInt s1 with
    | none => none
    | some (exp, s2) =>
      match readStr s2 with
      | none => none
      | some (uid, s3) =>
        match parsePrefill (s.length + 1) s3 with
        | none => none
        | some (pf, s4) =>
          if s4 = [] then
            some { surveyID := sid, prefillData := pf, expiresAt := exp, uniqueID := uid }
          else none

/-! ### Round-trip of the serialization -/

theorem readChunk_append (xs rest : List Nat) : readChunk xs.length (xs ++ rest) = some (xs, rest) := by
  unfold readChunk
  rw [List.length_append, if_neg (by omega), List.take_left, List.drop_left]

theorem readNat_append (n : Nat) (rest : List Nat) : readNat (natBytes n ++ rest) = some (n, rest) := by
  unfold natBytes readNat
  rw [List.cons_append]
  simp [readByte, readChunk_append, natOfDigits_natDigits]

theorem readInt_append (i : Int) (rest : List Nat) : readInt (intBytes i ++ rest) = some (i, rest) := by
  unfold intBytes readInt
  by_cases h : 0 ≤ i
  · rw [if_pos h, List.cons_append]
    simp [readByte, readNat_append, Int.toNat_of_nonneg h]
  · rw [if_neg h, List.cons_append]
    simp [readByte, readNat_append]
    omega

theorem readStr_append (s rest : List Nat) : readStr (strBytes s ++ rest) = some (s, rest) := by
  unfold strBytes readStr
  rw [List.append_assoc]
  simp [readNat_append, readChunk_append]

mutual

/-- Fuel sufficient for parseJVal to parse a serialized value. -/
def jfuel : JValue → Nat
  | .arr xs => afuel xs + 1
  | _ => 1

def afuel : List JValue → Nat
  | [] => 1
  | v :: vs => jfuel v + afuel vs + 1

end

def pfuel : List (List Nat × JValue) → Nat
  | [] => 1
  | (_, v) :: rest => jfuel v + pfuel rest + 1

theorem jfuel_pos (v : JValue) : 1 ≤ jfuel v := by
  cases v <;> simp [jfuel]

theorem afuel_pos (vs : List JValue) : 1 ≤ afuel vs := by
  cases vs <;> simp [afuel]

theorem pfuel_pos (pf : List (List Nat × JValue)) : 1 ≤ pfuel pf := by
  cases pf with
  | nil => simp [pfuel]
  | cons kv rest => obtain ⟨k, v⟩ := kv; simp [pfuel]

mutual

theorem jfuel_le : ∀ v : JValue, jfuel v ≤ (jvalBytes v).length
  | .str s => by simp [jfuel, jvalBytes]
  | .num n => by simp [jfuel, jvalBytes]
  | .boolean b => by simp [jfuel, jvalBytes]
  | .null => by simp [jfuel, jvalBytes]
  | .arr xs => by
    have := afuel_le xs
    simp only [jfuel, jvalBytes, List.length_cons]
    omega

theorem afuel_le : ∀ vs : List JValue, afuel vs ≤ (arrBytes vs).length
  | [] => by simp [afuel, arrBytes]
  | v :: vs => by
    have h1 := jfuel_le v
    have h2 := afuel_le vs
    simp only [afuel, arrBytes, List.length_cons, List.length_append]
    omega

end

theorem pfuel_le : ∀ pf : List (List Nat × JValue), pfuel pf ≤ (prefillBytes pf).length
  | [] => by simp [pfuel, prefillBytes]
  | (k, v) :: rest => by
    have h1 := jfuel_le v
    have h2 := pfuel_le rest
    simp only [pfuel, prefillBytes, List.length_cons, List.length_append]
    omega

theorem parse_rt (fuel : Nat) :
    (∀ (v : JValue) (rest : List Nat), jfuel v ≤ fuel →
      parseJVal fuel (jvalBytes v ++ rest) = some (v, rest)) ∧
    (∀ (vs : List JValue) (rest : List Nat), afuel vs ≤ fuel →
      parseArr fuel (arrBytes vs ++ rest) = some (vs, rest)) ∧
    (∀ (pf : List (List Nat × JValue)) (rest : List Nat), pfuel pf ≤ fuel →
      parsePrefill fuel (prefillBytes pf ++ rest) = some (pf, rest)) := by
  induction fuel with
  | zero =>
    refine ⟨fun v _ h => absurd h ?_, fun vs _ h => absurd h ?_, fun pf _ h => absurd h ?_⟩
    · have := jfuel_pos v; omega
    · have := afuel_pos vs; omega
    · have := pfuel_pos pf; omega
  | succ f ih =>
    obtain ⟨ihJ, ihA, ihP⟩ := ih
    refine ⟨?_, ?_, ?_⟩
    · intro v rest hf
      cases v with
      | str s =>
        simp [jvalBytes, List.cons_append, parseJVal, readByte, readStr_append]
      | num n =>
        simp [jvalBytes, List.cons_append, parseJVal, readByte, readInt_append]
      | boolean b =>
        cases b <;> simp [jvalBytes, List.cons_append, parseJVal, readByte]
      | null =>
        simp [jvalBytes, List.cons_append, parseJVal, readByte]
      | arr xs =>
        have hxs : afuel xs ≤ f := by
          simp only [jfuel] at hf; omega
        simp [jvalBytes, List.cons_append, parseJVal, readByte, ihA xs rest hxs]
    · intro vs rest hf
      cases vs with
      | nil =>
        simp [arrBytes, List.cons_append, List.nil_append, parseArr, readByte]
      | cons v vs =>
        have hv : jfuel v ≤ f := by
          simp only [afuel] at hf
          have := afuel_pos vs
          omega
        have hvs : afuel vs ≤ f := by
          simp only [afuel] at hf
          have := jfuel_pos v
          omega
        simp [arrBytes, List.cons_append, List.append_assoc, parseArr, readByte,
          ihJ v _ hv, ihA vs rest hvs]
    · intro pf rest hf
      cases pf with
      | nil =>
        simp [prefillBytes, List.cons_append, List.nil_append, parsePrefill, readByte]
      | cons kv pf =>
        obtain ⟨k, v⟩ := kv
        have hv : jfuel v ≤ f := by
          simp only [pfuel] at hf
          have := pfuel_pos pf
          omega
        have hpf : pfuel pf ≤ f := by
          simp only [pfuel] at hf
          have := jfuel_pos v
          omega
        simp [prefillBytes, List.cons_append, List.append_assoc, parsePrefill, readByte,
          readStr_append, ihJ v _ hv, ihP pf rest hpf]

theorem parseTokenData_tokenBytes (d : TokenData) : parseTokenData (tokenBytes d) = some d := by
  unfold parseTokenData tokenBytes
  rw [List.append_assoc, List.append_assoc]
  have hfuel : pfuel d.prefillData ≤
      (natBytes d.surveyID ++ (intBytes d.expiresAt ++ (strBytes d.uniqueID ++
        prefillBytes d.prefillData))).length + 1 := by
    have h1 := pfuel_le d.prefillData
    simp only [List.length_append]
    omega
  have hpf := ((parse_rt _).2.2) d.prefillData [] hfuel
  rw [List.append_nil] at hpf
  simp only [List.length_append] at hpf
  simp [readNat_append, readInt_append, readStr_append, hpf]

/-! ## The codec (service/encryption.go)

EncryptToken serializes the payload, seals it under a fresh nonce that is
prepended to the ciphertext, and base64url-encodes the result.  The
randomly drawn nonce is an explicit argument (the source draws it from
crypto/rand).  DecryptToken reverses the text encoding, rejects inputs
shorter than the nonce, splits the nonce off, opens, and deserializes. -/

def encryptToken (key nonce : List Nat) (d : TokenData) : List Nat :=
  b64EncodeGroups (nonce ++ gcmSeal key nonce (tokenBytes d))

def decryptToken (key : List Nat) (token : List Nat) : Option TokenData :=
  match b64DecodeGroups token with
  | none => none
  | some data =>
    if data.length < gcmNonceSize then none
    else
      match gcmOpen key (data.take gcmNonceSize) (data.drop gcmNonceSize) with
      | none => none
      | some pt => parseTokenData pt

theorem decryptToken_eq_of_decode (key t data : List Nat) (h : b64DecodeGroups t = some data) :
    decryptToken key t =
      if data.length < gcmNonceSize then none
      else
        match gcmOpen key (data.take gcmNonceSize) (data.drop gcmNonceSize) with
        | none => none
        | some pt => parseTokenData pt := by
  unfold decryptToken
  rw [h]

theorem decryptToken_eq_of_decode_fail (key t : List Nat) (h : b64DecodeGroups t = none) :
    decryptToken key t = none := by
  unfold decryptToken
  rw [h]

mutual

/-- Well-formedness of a JSON value: strings are bytes with a bounded
length, numbers fit in an int64 (Go's JSON numerics are modelled at
integer precision). -/
def jvalWF : JValue → Bool
  | .str s => bytesOK s && decide (s.length < 2 ^ 64)
  | .num n => decide (-(2 ^ 63) ≤ n ∧ n < 2 ^ 63)
  | .boolean _ => true
  | .null => true
  | .arr xs => jvalListWF xs

def jvalListWF : List JValue → Bool
  | [] => true
  | v :: vs => jvalWF v && jvalListWF vs

end

def prefillWF : List (List Nat × JValue) → Bool
  | [] => true
  | (k, v) :: rest => bytesOK k && decide (k.length < 2 ^ 64) && jvalWF v && prefillWF rest

/-- A valid payload: the survey id fits in a Go uint (64 bits), the
expiry in an int64, the unique id is a byte string, and the prefill map
is well formed. -/
def TokenData.WF (d : TokenData) : Bool :=
  decide (d.surveyID < 2 ^ 64) && decide (-(2 ^ 63) ≤ d.expiresAt ∧ d.expiresAt < 2 ^ 63) &&
    bytesOK d.uniqueID && decide (d.uniqueID.length < 2 ^ 64) && prefillWF d.prefillData

theorem natBytes_bytesOK {n : Nat} (h : n < 2 ^ 64) : bytesOK (natBytes n) = true := by
  have hlen : (natDigits n).length ≤ 8 := by
    refine natDigitsF_length n n 8 ?_
    calc n < 2 ^ 64 := h
    _ = 256 ^ 8 := by norm_num
  have hds := natDigitsF_bytesOK n n
  simp only [natBytes, bytesOK, List.all_cons, Bool.and_eq_true, decide_eq_true_eq]
  exact ⟨by omega, hds⟩

theorem intBytes_bytesOK {i : Int} (h1 : -(2 ^ 63) ≤ i) (h2 : i < 2 ^ 63) :
    bytesOK (intBytes i) = true := by
  unfold intBytes
  by_cases h : 0 ≤ i
  · rw [if_pos h]
    have : i.toNat < 2 ^ 64 := by omega
    have hb := natBytes_bytesOK this
    simp only [bytesOK, List.all_cons, Bool.and_eq_true, decide_eq_true_eq] at hb ⊢
    exact ⟨by omega, hb⟩
  · rw [if_neg h]
    have : (-i).toNat < 2 ^ 64 := by omega
    have hb := natBytes_bytesOK this
    simp only [bytesOK, List.all_cons, Bool.and_eq_true, decide_eq_true_eq] at hb ⊢
    exact ⟨by omega, hb⟩

theorem strBytes_bytesOK {s : List Nat} (h1 : bytesOK s = true) (h2 : s.length < 2 ^ 64) :
    bytesOK (strBytes s) = true :=
  bytesOK_append (natBytes_bytesOK h2) h1

mutual

theorem jvalBytes_bytesOK : ∀ v : JValue, jvalWF v = true → bytesOK (jvalBytes v) = true
  | .str s, h => by
    simp only [jvalWF, Bool.and_eq_true, decide_eq_true_eq] at h
    have := strBytes_bytesOK h.1 h.2
    simp only [jvalBytes, bytesOK, List.all_cons, Bool.and_eq_true, decide_eq_true_eq] at this ⊢
    exact ⟨by omega, this⟩
  | .num n, h => by
    simp only [jvalWF, decide_eq_true_eq] at h
    have := intBytes_bytesOK h.1 h.2
    simp only [jvalBytes, bytesOK, List.all_cons, Bool.and_eq_true, decide_eq_true_eq] at this ⊢
    exact ⟨by omega, this⟩
  | .boolean b, _ => by cases b <;> decide
  | .null, _ => by decide
  | .arr xs, h => by
    simp only [jvalWF] at h
    have := arrBytes_bytesOK xs h
    simp only [jvalBytes, bytesOK, List.all_cons, Bool.and_eq_true, decide_eq_true_eq] at this ⊢
    exact ⟨by omega, this⟩

theorem arrBytes_bytesOK : ∀ vs : List JValue, jvalListWF vs = true → bytesOK (arrBytes vs) = true
  | [], _ => by decide
  | v :: vs, h => by
    simp only [jvalListWF, Bool.and_eq_true] at h
    have h1 := jvalBytes_bytesOK v h.1
    have h2 := arrBytes_bytesOK vs h.2
    have := bytesOK_append h1 h2
    simp only [arrBytes, bytesOK, List.all_cons, Bool.and_eq_true, decide_eq_true_eq] at this ⊢
    exact ⟨by omega, this⟩

end

theorem prefillBytes_bytesOK : ∀ pf : List (List Nat × JValue), prefillWF pf = true →
    bytesOK (prefillBytes pf) = true
  | [], _ => by decide
  | (k, v) :: rest, h => by
    simp only [prefillWF, Bool.and_eq_true, decide_eq_true_eq] at h
    have h1 := strBytes_bytesOK h.1.1.1 h.1.1.2
    have h2 := jvalBytes_bytesOK v h.1.2
    have h3 := prefillBytes_bytesOK rest h.2
    have := bytesOK_append h1 (bytesOK_append h2 h3)
    simp only [prefillBytes, bytesOK, List.all_cons, List.append_assoc, Bool.and_eq_true,
      decide_eq_true_eq] at this ⊢
    exact ⟨by omega, this⟩

theorem tokenBytes_bytesOK {d : TokenData} (h : d.WF = true) : bytesOK (tokenBytes d) = true := by
  simp only [TokenData.WF, Bool.and_eq_true, decide_eq_true_eq] at h
  exact bytesOK_append
    (bytesOK_append
      (bytesOK_append (natBytes_bytesOK h.1.1.1.1) (intBytes_bytesOK h.1.1.1.2.1 h.1.1.1.2.2))
      (strBytes_bytesOK h.1.1.2 h.1.2))
    (prefillBytes_bytesOK _ h.2)

/-- C4.  For every valid LinkPayload p (TokenData with resource id, prefill
map, expiry, and nonce), DecryptToken(EncryptToken(p)) succeeds and returns
a payload equal to p.  The per-call random GCM nonce is an explicit
argument of EncryptToken (drawn from crypto/rand in the source) with its
real length 12; the key is the service's 32-byte AES-256 key. -/
theorem C4_token_roundtrip (key nonce : List Nat) (d : TokenData)
    (hkey : key.length = 32) (hn : nonce.length = gcmNonceSize) (hnb : bytesOK nonce = true)
    (hwf : d.WF = true) :
    decryptToken key (encryptToken key nonce d) = some d := by
  unfold encryptToken
  have hdata : bytesOK (nonce ++ gcmSeal key nonce (tokenBytes d)) = true :=
    bytesOK_append hnb (gcmSeal_bytesOK key nonce _ (tokenBytes_bytesOK hwf))
  rw [decryptToken_eq_of_decode key _ _ (b64_roundtrip _ hdata)]
  have hlen : (nonce ++ gcmSeal key nonce (tokenBytes d)).length
      = gcmNonceSize + ((tokenBytes d).length + gcmTagSize) := by
    rw [List.length_append, gcmSeal_length, hn]
  have htake : (nonce ++ gcmSeal key nonce (tokenBytes d)).take gcmNonceSize = nonce := by
    rw [← hn, List.take_left]
  have hdrop : (nonce ++ gcmSeal key nonce (tokenBytes d)).drop gcmNonceSize
      = gcmSeal key nonce (tokenBytes d) := by
    rw [← hn, List.drop_left]
  rw [if_neg (by rw [hlen]; omega), htake, hdrop, gcmOpen_gcmSeal]
  exact parseTokenData_tokenBytes d

def c4Key : List Nat := List.replicate 32 7

def c4Nonce : List Nat := List.replicate 12 3

def c4Data : TokenData :=
  { surveyID := 42
    prefillData := [([110, 97, 109, 101], .str [65, 108, 105, 99, 101])]
    expiresAt := 1700000000
    uniqueID := [117, 105, 100, 49] }

set_option maxRecDepth 10000 in
/-- Witness for C4 at a concrete payload (survey 42, prefill
name=Alice, expiry 1700000000, unique id uid1). -/
theorem C4_token_roundtrip_witness :
    decryptToken c4Key (encryptToken c4Key c4Nonce c4Data) = some c4Data :=
  C4_token_roundtrip c4Key c4Nonce c4Data (by decide) (by decide) (by decide) (by decide)

/-- C5.  For every input string t, DecryptToken(t) fails whenever base64url
decoding of t fails, or the decoded bytes are shorter than the minimum
size of initialization value plus authentication tag, or authenticated
decryption (gcm.Open) fails; no partial payload is ever returned (the
result is none, never a fragment). -/
theorem C5_decrypt_failures (key t : List Nat)
    (h : b64DecodeGroups t = none ∨
      (∃ bs, b64DecodeGroups t = some bs ∧ bs.length < gcmNonceSize + gcmTagSize) ∨
      (∃ bs, b64DecodeGroups t = some bs ∧
        gcmOpen key (bs.take gcmNonceSize) (bs.drop gcmNonceSize) = none)) :
    decryptToken key t = none := by
  rcases h with h | ⟨bs, hbs, hshort⟩ | ⟨bs, hbs, hopen⟩
  · exact decryptToken_eq_of_decode_fail key t h
  · rw [decryptToken_eq_of_decode key t bs hbs]
    by_cases hlt : bs.length < gcmNonceSize
    · rw [if_pos hlt]
    · rw [if_neg hlt]
      have hdl : (bs.drop gcmNonceSize).length < gcmTagSize := by
        rw [List.length_drop]
        simp only [gcmNonceSize, gcmTagSize] at *
        omega
      rw [show gcmOpen key (bs.take gcmNonceSize) (bs.drop gcmNonceSize) = none by
        unfold gcmOpen
        rw [if_pos hdl]]
  · rw [decryptToken_eq_of_decode key t bs hbs]
    by_cases hlt : bs.length < gcmNonceSize
    · rw [if_pos hlt]
    · rw [if_neg hlt, hopen]

/-- Witness for C5: the one-character input "!" is not valid base64url,
so decryption fails. -/
theorem C5_decrypt_failures_witness : decryptToken (List.replicate 32 9) [33] = none :=
  C5_decrypt_failures (List.replicate 32 9) [33] (Or.inl rfl)

/-! ## Data model (internal/model, internal/repository)

Times are Int nanoseconds since the epoch; Go's Time.Unix() is division
by 10^9.  OneLink mirrors model.OneLink; the gorm-assigned surrogate key
and audit timestamps are carried as plain fields. -/

def nsPerSec : Int := 1000000000

/-- Unix seconds of an instant given in nanoseconds (Time.Unix()). -/
def unixSec (t : Int) : Int := t / nsPerSec

/-- model.OneLink: the durable record of one issued link. -/
structure OneLink where
  id : Nat
  surveyID : Nat
  token : List Nat
  prefillData : List (List Nat × JValue)
  expiresAt : Int
  used : Bool
  usedAt : Option Int
  accessedAt : Option Int
  createdAt : Int
deriving DecidableEq

/-- model.OneLink.IsExpired: time.Now().After(o.ExpiresAt). -/
def OneLink.IsExpired (o : OneLink) (now : Int) : Bool := decide (o.expiresAt < now)

/-- model.OneLink.IsValid: !o.Used && !o.IsExpired(). -/
def OneLink.IsValid (o : OneLink) (now : Int) : Bool := !o.used && !(o.IsExpired now)

/-- repository MarkAsUsed: unconditionally sets used=true and usedAt=now
(UPDATE ... WHERE id = ?). -/
def markAsUsed (now : Int) (o : OneLink) : OneLink :=
  { o with used := true, usedAt := some now }

/-- repository MarkAsAccessed: sets accessedAt=now only when it is still
NULL (UPDATE ... WHERE id = ? AND accessed_at IS NULL). -/
def markAsAccessed (now : Int) (o : OneLink) : OneLink :=
  if o.accessedAt = none then { o with accessedAt := some now } else o

/-- C8.  Claimed: a OneLink record is valid iff it is not used and now is
strictly before expiresAt; in particular at now == expiresAt the record
is not valid.  The code's IsExpired uses time.Now().After(ExpiresAt),
which is false at the exact expiry instant, so IsValid is still true
there: the claim's strict bound fails at the boundary.  This
counterexample shows an unused record at now == expiresAt that IsValid
accepts although now < expiresAt fails. -/
theorem C8_isvalid_boundary_cex :
    OneLink.IsValid
      { id := 1, surveyID := 1, token := [], prefillData := [], expiresAt := 5,
        used := false, usedAt := none, accessedAt := none, createdAt := 0 } 5 = true
    ∧ ¬((5 : Int) <
      (OneLink.expiresAt
        { id := 1, surveyID := 1, token := [], prefillData := [], expiresAt := 5,
          used := false, usedAt := none, accessedAt := none, createdAt := 0 })) := by
  constructor
  · decide
  · decide

/-- C8 (amended).  A OneLink record is valid iff it is not used and now
is at or before expiresAt (now ≤ expiresAt): IsValid is
!used && !(expiresAt < now), so the record is still valid at the exact
expiry instant. -/
theorem C8_isvalid_iff (o : OneLink) (now : Int) :
    o.IsValid now = true ↔ (o.used = false ∧ now ≤ o.expiresAt) := by
  simp only [OneLink.IsValid, OneLink.IsExpired, Bool.and_eq_true, Bool.not_eq_true',
    decide_eq_false_iff_not]
  exact and_congr Iff.rfl (by omega)

/-! ## Errors (pkg/errors) and observable effects

Errors are the sentinel values and constructors reached on the OTAL
paths.  Effects record, in program order, every mutating call a service
function issues against the cache, the lock and the store. -/

inductive AppErr where
  | notFound
  | forbidden
  | invalidToken
  | tokenExpired
  | linkUsed
  | surveyNotPublished
  | concurrentSubmission
  | validationFailed (field : String)
  | wrapped
  | internalError
deriving DecidableEq

inductive Effect where
  | cacheSet (used : Bool) (ttl : Int)
  | lockAcquire
  | lockRelease
  | createResponse (surveyID : Nat) (oneLinkID : Nat)
  | markUsed (id : Nat)
  | markAccessed (id : Nat)
deriving DecidableEq

/-- model.Survey, restricted to the fields the OTAL paths read. -/
structure Survey where
  id : Nat
  userID : Nat
  status : String
deriving DecidableEq

/-- model.Question, restricted to the field issuance validation reads. -/
structure Question where
  id : Nat
  prefillKey : List Nat
deriving DecidableEq

/-- cache.GetOneLinkStatus reports false on a miss (redis.Nil). -/
def cachedUsed (st : Option Bool) : Bool := st.getD false

/-! ## Issuance (share.go GenerateShareLink)

The collaborators' replies (survey lookup, question lookup, store
create) and the random draws (uuid, GCM nonce) are explicit inputs; the
second component of the result lists the OneLink rows created. -/

structure GenEnv where
  userID : Nat
  surveyID : Nat
  survey : Option Survey
  questionsErr : Bool
  questions : List Question
  prefillData : List (List Nat × JValue)
  expiresAtReq : Option Int
  now : Int
  maxExpiry : Int
  defaultExpiry : Int
  uniqueID : List Nat
  nonce : List Nat
  key : List Nat
  createErr : Bool
  newID : Nat
deriving DecidableEq

structure GenOk where
  token : List Nat
  expiresAt : Int
deriving DecidableEq

/-- A prefill key is known iff some question declares it as its non-empty
prefill_key (share.go lines 81-94). -/
def prefillKeyKnown (questions : List Question) (k : List Nat) : Bool :=
  questions.any (fun q => !q.prefillKey.isEmpty && q.prefillKey == k)

def generateShareLink (e : GenEnv) : Except AppErr GenOk × List OneLink :=
  match e.survey with
  | none => (.error .notFound, [])
  | some survey =>
    if survey.userID ≠ e.userID then (.error .forbidden, [])
    else if e.questionsErr then (.error .wrapped, [])
    else if !e.prefillData.isEmpty &&
        !e.prefillData.all (fun kv => prefillKeyKnown e.questions kv.1) then
      (.error (.validationFailed "prefill_data"), [])
    else
      let expiry : Except AppErr Int :=
        match e.expiresAtReq with
        | some t =>
          if t < e.now then .error (.validationFailed "expires_at")
          else if e.now + e.maxExpiry < t then .error (.validationFailed "expires_at")
          else .ok t
        | none => .ok (e.now + e.defaultExpiry)
      match expiry with
      | .error err => (.error err, [])
      | .ok exp =>
        let td : TokenData :=
          { surveyID := e.surveyID, prefillData := e.prefillData,
            expiresAt := unixSec exp, uniqueID := e.uniqueID }
        let tok := encryptToken e.key e.nonce td
        let row : OneLink :=
          { id := e.newID, surveyID := e.surveyID, token := tok,
            prefillData := e.prefillData, expiresAt := exp, used := false,
            usedAt := none, accessedAt := none, createdAt := e.now }
        if e.createErr then (.error .wrapped, [])
        else (.ok { token := tok, expiresAt := exp }, [row])

/-! ## Preview validation (share.go ValidateAndGetSurvey) -/

structure ValidateEnv where
  key : List Nat
  token : List Nat
  now : Int
  cacheStatus : Option Bool
  cacheGetErr : Bool
  link : Option OneLink
  survey : Option Survey
deriving DecidableEq

structure ValidateOk where
  surveyID : Nat
  prefill : List (List Nat × JValue)
deriving DecidableEq

def validateAndGetSurvey (e : ValidateEnv) : Except AppErr ValidateOk × List Effect :=
  match decryptToken e.key e.token with
  | none => (.error .invalidToken, [])
  | some td =>
    if td.expiresAt < unixSec e.now then (.error .tokenExpired, [])
    else if !e.cacheGetErr && cachedUsed e.cacheStatus then (.error .linkUsed, [])
    else
      match e.link with
      | none => (.error .invalidToken, [])
      | some l =>
        let cacheTTL := td.expiresAt * nsPerSec - e.now
        if l.used then
          (.error .linkUsed, if 0 < cacheTTL then [.cacheSet true cacheTTL] else [])
        else if l.IsExpired e.now then (.error .tokenExpired, [])
        else
          let eff1 : List Effect := if 0 < cacheTTL then [.cacheSet false cacheTTL] else []
          let eff2 : List Effect := if l.accessedAt = none then [.markAccessed l.id] else []
          match e.survey with
          | none => (.error .notFound, eff1 ++ eff2)
          | some s => (.ok { surveyID := s.id, prefill := td.prefillData }, eff1 ++ eff2)

/-! ## Submission (response.go SubmitResponse)

The answer validation (validateResponseData) and the survey/question
lookups are the caller-specific business inputs; their outcome is an
explicit input of the environment.  The third component of the result is
the state of the link row after the call (write-through of MarkAsUsed
when it succeeds). -/

structure SubmitEnv where
  key : List Nat
  token : List Nat
  now : Int
  cacheStatus : Option Bool
  cacheGetErr : Bool
  lockErr : Bool
  lockFree : Bool
  link : Option OneLink
  survey : Option Survey
  questionsErr : Bool
  validationErr : Option AppErr
  createErr : Bool
  markUsedErr : Bool
  newResponseID : Nat
deriving DecidableEq

structure SubmitOk where
  id : Nat
  surveyID : Nat
  submittedAt : Int
deriving DecidableEq

def submitResponse (e : SubmitEnv) : Except AppErr SubmitOk × List Effect × Option OneLink :=
  match decryptToken e.key e.token with
  | none => (.error .invalidToken, [], e.link)
  | some td =>
    if td.expiresAt < unixSec e.now then (.error .tokenExpired, [], e.link)
    else if !e.cacheGetErr && cachedUsed e.cacheStatus then (.error .linkUsed, [], e.link)
    else if e.lockErr || !e.lockFree then (.error .concurrentSubmission, [], e.link)
    else
      let ttl := td.expiresAt * nsPerSec - e.now
      match e.link with
      | none => (.error .invalidToken, [.lockAcquire, .lockRelease], e.link)
      | some l =>
        if l.used then
          (.error .linkUsed, [.lockAcquire, .cacheSet true ttl, .lockRelease], e.link)
        else
          match e.survey with
          | none => (.error .notFound, [.lockAcquire, .lockRelease], e.link)
          | some s =>
            if s.status ≠ "published" then
              (.error .surveyNotPublished, [.lockAcquire, .lockRelease], e.link)
            else if e.questionsErr then
              (.error .internalError, [.lockAcquire, .lockRelease], e.link)
            else
              match e.validationErr with
              | some err => (.error err, [.lockAcquire, .lockRelease], e.link)
              | none =>
                if e.createErr then
                  (.error .internalError, [.lockAcquire, .lockRelease], e.link)
                else
                  (.ok { id := e.newResponseID, surveyID := s.id, submittedAt := e.now },
                    [.lockAcquire, .createResponse s.id l.id, .markUsed l.id,
                      .cacheSet true ttl, .lockRelease],
                    if e.markUsedErr then some l else some (markAsUsed e.now l))

/-! ## Claims about issuance -/

/-- Key, nonce and payload reused by concrete environments below. -/
def witKey : List Nat := List.replicate 32 5

def witNonce : List Nat := List.replicate 12 1

def witTd : TokenData := { surveyID := 1, prefillData := [], expiresAt := 100, uniqueID := [117] }

def witToken : List Nat := encryptToken witKey witNonce witTd

def isOkGen (r : Except AppErr GenOk × List OneLink) : Bool :=
  match r.1 with
  | .ok _ => true
  | .error _ => false

def c6Env : GenEnv :=
  { userID := 5, surveyID := 1,
    survey := some { id := 1, userID := 5, status := "draft" },
    questionsErr := false, questions := [],
    prefillData := [], expiresAtReq := some 1000000000000, now := 1000000000000,
    maxExpiry := 3600000000000, defaultExpiry := 86400000000000,
    uniqueID := [117], nonce := witNonce, key := witKey,
    createErr := false, newID := 1 }

set_option maxRecDepth 10000 in
/-- C6, counterexample.  Claimed: an explicit expiry must be strictly in
the future, else the call fails with ExpiryOutOfRange.  The code checks
expiresAt.Before(time.Now()), which is false when the expiry equals now,
so an expiry exactly equal to now is accepted: here expiresAtReq = now
and the call succeeds. -/
theorem C6_expiry_boundary_cex :
    isOkGen (generateShareLink c6Env) = true ∧ c6Env.expiresAtReq = some c6Env.now := by
  constructor
  · decide
  · rfl

/-- C6 (amended).  With the survey found and owned, the question lookup
succeeding and the prefill keys valid: an explicit expiry fails with the
expires_at validation error (ExpiryOutOfRange) iff it is before now or
after now + maxExpiry — an expiry equal to now (not strictly in the
future) is accepted — and in the accepted range the link's expiry is the
explicit value; with no explicit expiry it is now + defaultExpiry. -/
theorem C6_expiry_resolution (e : GenEnv) (s : Survey)
    (hs : e.survey = some s) (hown : s.userID = e.userID) (hq : e.questionsErr = false)
    (hpf : e.prefillData.all (fun kv => prefillKeyKnown e.questions kv.1) = true) :
    (∀ t, e.expiresAtReq = some t → (t < e.now ∨ e.now + e.maxExpiry < t) →
      generateShareLink e = (.error (.validationFailed "expires_at"), []))
    ∧ (∀ t, e.expiresAtReq = some t → e.now ≤ t → t ≤ e.now + e.maxExpiry →
        e.createErr = false →
        (generateShareLink e).1 = .ok
          { token := encryptToken e.key e.nonce
              { surveyID := e.surveyID, prefillData := e.prefillData,
                expiresAt := unixSec t, uniqueID := e.uniqueID },
            expiresAt := t })
    ∧ (e.expiresAtReq = none → e.createErr = false →
        (generateShareLink e).1 = .ok
          { token := encryptToken e.key e.nonce
              { surveyID := e.surveyID, prefillData := e.prefillData,
                expiresAt := unixSec (e.now + e.defaultExpiry), uniqueID := e.uniqueID },
            expiresAt := e.now + e.defaultExpiry }) := by
  refine ⟨?_, ?_, ?_⟩
  · intro t ht hout
    by_cases hlt : t < e.now
    · simp [generateShareLink, hs, hown, hq, hpf, ht, hlt]
    · have hgt : e.now + e.maxExpiry < t := by
        rcases hout with h | h
        · omega
        · exact h
      simp [generateShareLink, hs, hown, hq, hpf, ht, hlt, hgt]
  · intro t ht h1 h2 hc
    simp only [generateShareLink, hs, hown, hq, hpf, ht]
    simp [show ¬(t < e.now) by omega, show ¬(e.now + e.maxExpiry < t) by omega, hc]
  · intro ht hc
    simp [generateShareLink, hs, hown, hq, hpf, ht, hc]

def c6wEnv : GenEnv :=
  { userID := 5, surveyID := 1,
    survey := some { id := 1, userID := 5, status := "draft" },
    questionsErr := false, questions := [],
    prefillData := [], expiresAtReq := some 5, now := 10,
    maxExpiry := 100, defaultExpiry := 200,
    uniqueID := [117], nonce := witNonce, key := witKey,
    createErr := false, newID := 1 }

/-- Witness for the amended C6: an explicit expiry 5 with now = 10 (in
the past) is rejected with the expires_at validation error and nothing
is stored. -/
theorem C6_expiry_resolution_witness :
    generateShareLink c6wEnv = (.error (.validationFailed "expires_at"), []) :=
  (C6_expiry_resolution c6wEnv { id := 1, userID := 5, status := "draft" }
    rfl rfl rfl (by decide)).1 5 rfl (Or.inl (by decide))

/-- C7.  If the prefill map contains a key matching no question's
non-empty prefill_key for the target survey (with the survey found and
owned and the question lookup succeeding), GenerateShareLink fails with
the prefill_data validation error (InvalidPrefillKey) and creates no
OneLink row. -/
theorem C7_invalid_prefill_key (e : GenEnv) (s : Survey) (k : List Nat) (v : JValue)
    (hs : e.survey = some s) (hown : s.userID = e.userID) (hq : e.questionsErr = false)
    (hmem : (k, v) ∈ e.prefillData) (hbad : prefillKeyKnown e.questions k = false) :
    generateShareLink e = (.error (.validationFailed "prefill_data"), []) := by
  have hne : e.prefillData.isEmpty = false := by
    cases h : e.prefillData with
    | nil => rw [h] at hmem; cases hmem
    | cons _ _ => rfl
  have hall : e.prefillData.all (fun kv => prefillKeyKnown e.questions kv.1) = false := by
    rw [List.all_eq_false]
    exact ⟨(k, v), hmem, by simp [hbad]⟩
  simp [generateShareLink, hs, hown, hq, hne, hall]

def c7Env : GenEnv :=
  { userID := 5, surveyID := 1,
    survey := some { id := 1, userID := 5, status := "published" },
    questionsErr := false, questions := [{ id := 1, prefillKey := [110] }],
    prefillData := [([120], .str [97])], expiresAtReq := none, now := 10,
    maxExpiry := 100, defaultExpiry := 200,
    uniqueID := [117], nonce := witNonce, key := witKey,
    createErr := false, newID := 1 }

/-- Witness for C7: a prefill map with key "x" against a survey whose
only question has prefill_key "n" is rejected and no row is created. -/
theorem C7_invalid_prefill_key_witness :
    generateShareLink c7Env = (.error (.validationFailed "prefill_data"), []) :=
  C7_invalid_prefill_key c7Env { id := 1, userID := 5, status := "published" }
    [120] (.str [97]) rfl rfl rfl (by decide) (by decide)

/-! ## Claims about the used-record branch, the expiry re-check, the
first-access marker, and the swallowed mark-used failure -/

instance {ε α : Type} [DecidableEq ε] [DecidableEq α] : DecidableEq (Except ε α)
  | .ok a, .ok b =>
    if h : a = b then .isTrue (by rw [h]) else .isFalse (fun hc => h (Except.ok.inj hc))
  | .ok _, .error _ => .isFalse (fun hc => Except.noConfusion hc)
  | .error _, .ok _ => .isFalse (fun hc => Except.noConfusion hc)
  | .error a, .error b =>
    if h : a = b then .isTrue (by rw [h]) else .isFalse (fun hc => h (Except.error.inj hc))

def c2Link : OneLink :=
  { id := 3, surveyID := 1, token := witToken, prefillData := [],
    expiresAt := 100500000000, used := true, usedAt := some 50, accessedAt := none,
    createdAt := 0 }

def c2Env : ValidateEnv :=
  { key := witKey, token := witToken, now := 100400000000,
    cacheStatus := none, cacheGetErr := false,
    link := some c2Link, survey := some { id := 1, userID := 5, status := "published" } }

set_option maxRecDepth 10000 in
/-- C2, counterexample.  Claimed: whenever validation or consumption
reads a used record from the store it writes used=true to the cache
(TTL-aligned) and returns LinkAlreadyUsed.  ValidateAndGetSurvey guards
the write with cacheTTL > 0: at now = 100.4s with a payload expiry of
100s (the seconds-precision payload check still passes, 100 ≤ 100) the
TTL is negative, so the used record is read, LinkAlreadyUsed is
returned, but no cache write happens. -/
theorem C2_used_cache_write_cex :
    validateAndGetSurvey c2Env = (.error .linkUsed, []) ∧ c2Link.used = true := by
  constructor
  · decide
  · rfl

/-- C2 (amended).  When a used record is read from the store, both paths
return LinkAlreadyUsed; the submission path always writes used=true to
the cache with TTL equal to the remaining time to the payload expiry,
while the preview path performs that write only when this remaining TTL
is positive and skips it otherwise. -/
theorem C2_used_record_cache :
    (∀ (e : ValidateEnv) (td : TokenData) (l : OneLink),
      decryptToken e.key e.token = some td →
      unixSec e.now ≤ td.expiresAt →
      (!e.cacheGetErr && cachedUsed e.cacheStatus) = false →
      e.link = some l → l.used = true →
      validateAndGetSurvey e = (.error .linkUsed,
        if 0 < td.expiresAt * nsPerSec - e.now then
          [.cacheSet true (td.expiresAt * nsPerSec - e.now)] else []))
    ∧ (∀ (e : SubmitEnv) (td : TokenData) (l : OneLink),
      decryptToken e.key e.token = some td →
      unixSec e.now ≤ td.expiresAt →
      (!e.cacheGetErr && cachedUsed e.cacheStatus) = false →
      e.lockErr = false → e.lockFree = true →
      e.link = some l → l.used = true →
      submitResponse e = (.error .linkUsed,
        [.lockAcquire, .cacheSet true (td.expiresAt * nsPerSec - e.now), .lockRelease],
        e.link)) := by
  constructor
  · intro e td l hdec hsec hcache hlink hused
    have h1 : ¬(td.expiresAt < unixSec e.now) := by omega
    simp [validateAndGetSurvey, hdec, h1, hcache, hlink, hused]
  · intro e td l hdec hsec hcache hle hlf hlink hused
    have h1 : ¬(td.expiresAt < unixSec e.now) := by omega
    simp [submitResponse, hdec, h1, hcache, hle, hlf, hlink, hused]

def c2wLink : OneLink :=
  { id := 3, surveyID := 1, token := witToken, prefillData := [],
    expiresAt := 100000000000, used := true, usedAt := some 50, accessedAt := none,
    createdAt := 0 }

def c2wVEnv : ValidateEnv :=
  { key := witKey, token := witToken, now := 50000000000,
    cacheStatus := none, cacheGetErr := false,
    link := some c2wLink, survey := some { id := 1, userID := 5, status := "published" } }

def c2wSEnv : SubmitEnv :=
  { key := witKey, token := witToken, now := 50000000000,
    cacheStatus := none, cacheGetErr := false, lockErr := false, lockFree := true,
    link := some c2wLink, survey := some { id := 1, userID := 5, status := "published" },
    questionsErr := false, validationErr := none, createErr := false, markUsedErr := false,
    newResponseID := 9 }

set_option maxRecDepth 10000 in
/-- Witness for the amended C2 at now = 50s against payload expiry 100s:
the preview path writes the used status with the 50s TTL, and the
submission path does so under the lock. -/
theorem C2_used_record_cache_witness :
    validateAndGetSurvey c2wVEnv = (.error .linkUsed, [.cacheSet true 50000000000])
    ∧ submitResponse c2wSEnv = (.error .linkUsed,
        [.lockAcquire, .cacheSet true 50000000000, .lockRelease], some c2wLink) := by
  have h1 := C2_used_record_cache.1 c2wVEnv witTd c2wLink (by decide) (by decide) (by decide)
    rfl rfl
  have h2 := C2_used_record_cache.2 c2wSEnv witTd c2wLink (by decide) (by decide) (by decide)
    rfl rfl rfl rfl
  exact ⟨by rw [h1]; decide, by rw [h2]; decide⟩

def c3Link : OneLink :=
  { id := 3, surveyID := 1, token := witToken, prefillData := [],
    expiresAt := 100300000000, used := false, usedAt := none, accessedAt := some 7,
    createdAt := 0 }

def c3SEnv : SubmitEnv :=
  { key := witKey, token := witToken, now := 100400000000,
    cacheStatus := none, cacheGetErr := false, lockErr := false, lockFree := true,
    link := some c3Link, survey := some { id := 1, userID := 5, status := "published" },
    questionsErr := false, validationErr := none, createErr := false, markUsedErr := false,
    newResponseID := 9 }

set_option maxRecDepth 10000 in
/-- C3, counterexample.  Claimed: on the submission path, a stored
record that is itself expired is rejected with TokenExpired after the
durable read.  SubmitResponse has no such re-check: here the record
expired at 100.3s, now is 100.4s (the seconds-precision payload check
still passes), the record is unused, and the submission succeeds. -/
theorem C3_no_durable_expiry_recheck_cex :
    c3Link.IsExpired 100400000000 = true
    ∧ (submitResponse c3SEnv).1 = .ok { id := 9, surveyID := 1, submittedAt := 100400000000 } := by
  constructor
  · decide
  · decide

/-- C3 (amended).  The durable expiry re-check exists only on the
preview path: SubmitResponse, after its durable read, re-checks only the
used flag, and with an unused record it proceeds and succeeds even when
the stored record is already expired; ValidateAndGetSurvey in the same
state terminates with TokenExpired. -/
theorem C3_submit_ignores_record_expiry :
    (∀ (e : SubmitEnv) (td : TokenData) (l : OneLink) (s : Survey),
      decryptToken e.key e.token = some td →
      unixSec e.now ≤ td.expiresAt →
      (!e.cacheGetErr && cachedUsed e.cacheStatus) = false →
      e.lockErr = false → e.lockFree = true →
      e.link = some l → l.used = false → l.IsExpired e.now = true →
      e.survey = some s → s.status = "published" →
      e.questionsErr = false → e.validationErr = none → e.createErr = false →
      (submitResponse e).1 = .ok { id := e.newResponseID, surveyID := s.id, submittedAt := e.now })
    ∧ (∀ (e : ValidateEnv) (td : TokenData) (l : OneLink),
      decryptToken e.key e.token = some td →
      unixSec e.now ≤ td.expiresAt →
      (!e.cacheGetErr && cachedUsed e.cacheStatus) = false →
      e.link = some l → l.used = false → l.IsExpired e.now = true →
      validateAndGetSurvey e = (.error .tokenExpired, [])) := by
  constructor
  · intro e td l s hdec hsec hcache hle hlf hlink hused hexp hsurvey hstatus hq hval hc
    have h1 : ¬(td.expiresAt < unixSec e.now) := by omega
    simp [submitResponse, hdec, h1, hcache, hle, hlf, hlink, hused, hsurvey, hstatus, hq,
      hval, hc]
  · intro e td l hdec hsec hcache hlink hused hexp
    have h1 : ¬(td.expiresAt < unixSec e.now) := by omega
    simp [validateAndGetSurvey, hdec, h1, hcache, hlink, hused, hexp]

def c3VEnv : ValidateEnv :=
  { key := witKey, token := witToken, now := 100400000000,
    cacheStatus := none, cacheGetErr := false,
    link := some c3Link, survey := some { id := 1, userID := 5, status := "published" } }

set_option maxRecDepth 10000 in
/-- Witness for the amended C3: with the store-expired unused record of
the counterexample, the submission succeeds while the preview rejects
with TokenExpired. -/
theorem C3_submit_ignores_record_expiry_witness :
    (submitResponse c3SEnv).1 = .ok { id := 9, surveyID := 1, submittedAt := 100400000000 }
    ∧ validateAndGetSurvey c3VEnv = (.error .tokenExpired, []) := by
  constructor
  · exact C3_submit_ignores_record_expiry.1 c3SEnv witTd c3Link
      { id := 1, userID := 5, status := "published" } (by decide) (by decide) (by decide)
      rfl rfl rfl rfl (by decide) rfl rfl rfl rfl rfl
  · exact C3_submit_ignores_record_expiry.2 c3VEnv witTd c3Link (by decide) (by decide)
      (by decide) rfl rfl (by decide)

def c9Link : OneLink :=
  { id := 3, surveyID := 1, token := witToken, prefillData := [],
    expiresAt := 100500000000, used := false, usedAt := none, accessedAt := none,
    createdAt := 0 }

def c9Env : SubmitEnv :=
  { key := witKey, token := witToken, now := 50000000000,
    cacheStatus := none, cacheGetErr := false, lockErr := false, lockFree := true,
    link := some c9Link, survey := some { id := 1, userID := 5, status := "published" },
    questionsErr := false, validationErr := none, createErr := false, markUsedErr := false,
    newResponseID := 9 }

set_option maxRecDepth 10000 in
/-- C9, counterexample.  Claimed: the submission path, like the preview
path, sets the null first-accessed timestamp on successful validation.
SubmitResponse never calls MarkAsAccessed: here a submission on a record
with accessedAt = NULL succeeds, the complete sequence of mutating calls
contains no mark-accessed call, and the stored row after the call still
has accessedAt = NULL. -/
theorem C9_submit_marks_accessed_cex :
    c9Link.accessedAt = none
    ∧ (submitResponse c9Env).1 = .ok { id := 9, surveyID := 1, submittedAt := 50000000000 }
    ∧ (submitResponse c9Env).2.1 =
        [.lockAcquire, .createResponse 1 3, .markUsed 3, .cacheSet true 50000000000,
          .lockRelease]
    ∧ ((submitResponse c9Env).2.2.map OneLink.accessedAt) = some none := by
  refine ⟨rfl, by decide, by decide, by decide⟩

/-- C9 (amended).  Only the preview path marks first access: on a
successful preview with accessedAt = NULL a mark-accessed call is issued
for the record; SubmitResponse never issues one on any input; and the
repository's MarkAsAccessed (guarded by accessed_at IS NULL) is a no-op
once the field is set and is idempotent, so the field transitions from
NULL to a timestamp at most once and is never changed afterwards. -/
theorem C9_first_access_marking :
    (∀ (e : ValidateEnv) (td : TokenData) (l : OneLink) (s : Survey),
      decryptToken e.key e.token = some td →
      unixSec e.now ≤ td.expiresAt →
      (!e.cacheGetErr && cachedUsed e.cacheStatus) = false →
      e.link = some l → l.used = false → l.IsExpired e.now = false →
      l.accessedAt = none → e.survey = some s →
      Effect.markAccessed l.id ∈ (validateAndGetSurvey e).2)
    ∧ (∀ (e : SubmitEnv) (id : Nat), Effect.markAccessed id ∉ (submitResponse e).2.1)
    ∧ (∀ (o : OneLink) (now t : Int), o.accessedAt = some t → markAsAccessed now o = o)
    ∧ (∀ (o : OneLink) (n1 n2 : Int),
        markAsAccessed n2 (markAsAccessed n1 o) = markAsAccessed n1 o) := by
  refine ⟨?_, ?_, ?_, ?_⟩
  · intro e td l s hdec hsec hcache hlink hused hexp hacc hsurvey
    have h1 : ¬(td.expiresAt < unixSec e.now) := by omega
    simp [validateAndGetSurvey, hdec, h1, hcache, hlink, hused, hexp, hacc, hsurvey]
  · intro e idq
    simp only [submitResponse]
    repeat' split
    all_goals simp
  · intro o now t hacc
    simp [markAsAccessed, hacc]
  · intro o n1 n2
    unfold markAsAccessed
    by_cases h : o.accessedAt = none
    · simp [h]
    · simp [h]

def c9VEnv : ValidateEnv :=
  { key := witKey, token := witToken, now := 50000000000,
    cacheStatus := none, cacheGetErr := false,
    link := some c9Link, survey := some { id := 1, userID := 5, status := "published" } }

def c9SetLink : OneLink :=
  { id := 3, surveyID := 1, token := witToken, prefillData := [],
    expiresAt := 100500000000, used := false, usedAt := none, accessedAt := some 11,
    createdAt := 0 }

set_option maxRecDepth 10000 in
/-- Witness for the amended C9: the preview on a never-accessed record
issues the mark-accessed call; the submission of the C9 counterexample
issues none; and MarkAsAccessed leaves an already-set timestamp alone. -/
theorem C9_first_access_marking_witness :
    Effect.markAccessed 3 ∈ (validateAndGetSurvey c9VEnv).2
    ∧ Effect.markAccessed 3 ∉ (submitResponse c9Env).2.1
    ∧ markAsAccessed 99 c9SetLink = c9SetLink
    ∧ markAsAccessed 99 (markAsAccessed 42 c9Link) = markAsAccessed 42 c9Link :=
  ⟨C9_first_access_marking.1 c9VEnv witTd c9Link { id := 1, userID := 5, status := "published" }
      (by decide) (by decide) (by decide) rfl rfl (by decide) rfl rfl,
    C9_first_access_marking.2.1 c9Env 3,
    C9_first_access_marking.2.2.1 c9SetLink 99 11 rfl,
    C9_first_access_marking.2.2.2 c9Link 42 99⟩

/-- C10.  If the response record is created successfully but the
subsequent MarkAsUsed store update fails, SubmitResponse still returns
success; the stored link row keeps used = false, so a successful return
does not guarantee the durable used flag was set. -/
theorem C10_mark_used_failure_swallowed (e : SubmitEnv) (td : TokenData) (l : OneLink)
    (s : Survey)
    (hdec : decryptToken e.key e.token = some td)
    (hsec : unixSec e.now ≤ td.expiresAt)
    (hcache : (!e.cacheGetErr && cachedUsed e.cacheStatus) = false)
    (hle : e.lockErr = false) (hlf : e.lockFree = true)
    (hlink : e.link = some l) (hused : l.used = false)
    (hsurvey : e.survey = some s) (hstatus : s.status = "published")
    (hq : e.questionsErr = false) (hval : e.validationErr = none)
    (hc : e.createErr = false) (hmu : e.markUsedErr = true) :
    (submitResponse e).1 = .ok { id := e.newResponseID, surveyID := s.id, submittedAt := e.now }
    ∧ Effect.createResponse s.id l.id ∈ (submitResponse e).2.1
    ∧ (submitResponse e).2.2 = some l
    ∧ l.used = false := by
  have h1 : ¬(td.expiresAt < unixSec e.now) := by omega
  refine ⟨?_, ?_, ?_, hused⟩ <;>
    simp [submitResponse, hdec, h1, hcache, hle, hlf, hlink, hused, hsurvey, hstatus, hq,
      hval, hc, hmu]

def c10Env : SubmitEnv :=
  { key := witKey, token := witToken, now := 50000000000,
    cacheStatus := none, cacheGetErr := false, lockErr := false, lockFree := true,
    link := some c9Link, survey := some { id := 1, userID := 5, status := "published" },
    questionsErr := false, validationErr := none, createErr := false, markUsedErr := true,
    newResponseID := 9 }

set_option maxRecDepth 10000 in
/-- Witness for C10: with the mark-used update failing, the submission
still returns success and the stored row keeps used = false. -/
theorem C10_mark_used_failure_swallowed_witness :
    (submitResponse c10Env).1 = .ok { id := 9, surveyID := 1, submittedAt := 50000000000 }
    ∧ Effect.createResponse 1 3 ∈ (submitResponse c10Env).2.1
    ∧ (submitResponse c10Env).2.2 = some c9Link
    ∧ c9Link.used = false :=
  C10_mark_used_failure_swallowed c10Env witTd c9Link
    { id := 1, userID := 5, status := "published" }
    (by decide) (by decide) (by decide) rfl rfl rfl rfl rfl rfl rfl rfl rfl rfl

/-! ## C1: exactly-once consumption under concurrency

N request handlers concurrently execute SubmitResponse on the same
issued token over the shared per-token state: the durable used flag, the
status-cache entry, the distributed lock, and the number of response
rows created (the business action).  Each transition is one collaborator
call of response.go, on the happy path of a validly issued link: the
token decrypts, the payload is unexpired, the record exists, the survey
is published, the answers are valid, collaborator calls succeed, and
the 10-second lock lease outlives the critical section.  The deferred
ReleaseLock is the explicit last step of both in-lock exits.

Thread program (response.go lines 325-439):
  ts0: cache fast-path check — reject LinkAlreadyUsed, or ts1;
  ts1: try-acquire (SetNX)   — reject ConcurrentSubmission, or ts2;
  ts2: durable read of used  — ts3 if used, ts5 if unused;
  ts3: cache write used=true — ts4;
  ts4: deferred release      — reject LinkAlreadyUsed;
  ts5: create response row   — ts6;
  ts6: MarkAsUsed            — ts7;
  ts7: cache write used=true — ts8;
  ts8: deferred release      — success. -/

inductive Outcome where
  | success
  | alreadyUsed
  | concurrent
deriving DecidableEq

inductive ThreadState where
  | ts0 | ts1 | ts2 | ts3 | ts4 | ts5 | ts6 | ts7 | ts8
  | done (o : Outcome)
deriving DecidableEq

/-- The shared per-token state plus each handler's control point. -/
structure GState (n : Nat) where
  th : Fin n → ThreadState
  used : Bool
  cacheUsed : Option Bool
  lock : Option (Fin n)
  responses : Nat

/-- One atomic step of handler i (a no-op once the handler finished). -/
def threadStep {n : Nat} (i : Fin n) (s : GState n) : GState n :=
  match s.th i with
  | .ts0 =>
    if s.cacheUsed = some true then
      { s with th := Function.update s.th i (.done .alreadyUsed) }
    else { s with th := Function.update s.th i .ts1 }
  | .ts1 =>
    match s.lock with
    | none => { s with lock := some i, th := Function.update s.th i .ts2 }
    | some _ => { s with th := Function.update s.th i (.done .concurrent) }
  | .ts2 =>
    match s.used with
    | true => { s with th := Function.update s.th i .ts3 }
    | false => { s with th := Function.update s.th i .ts5 }
  | .ts3 => { s with cacheUsed := some true, th := Function.update s.th i .ts4 }
  | .ts4 => { s with lock := none, th := Function.update s.th i (.done .alreadyUsed) }
  | .ts5 => { s with responses := s.responses + 1, th := Function.update s.th i .ts6 }
  | .ts6 => { s with used := true, th := Function.update s.th i .ts7 }
  | .ts7 => { s with cacheUsed := some true, th := Function.update s.th i .ts8 }
  | .ts8 => { s with lock := none, th := Function.update s.th i (.done .success) }
  | .done _ => s

def stepRel {n : Nat} (s s' : GState n) : Prop := ∃ i, s' = threadStep i s

def Reachable {n : Nat} : GState n → GState n → Prop := Relation.ReflTransGen stepRel

/-- The state right after issuance: link unused, cache empty, lock free,
no response rows, every handler about to start. -/
def initState (n : Nat) : GState n :=
  { th := fun _ => .ts0, used := false, cacheUsed := none, lock := none, responses := 0 }

/-- Control points inside the critical section (between a successful
try-acquire and the deferred release). -/
def inCS : ThreadState → Bool
  | .ts2 | .ts3 | .ts4 | .ts5 | .ts6 | .ts7 | .ts8 => true
  | _ => false

/-- Handlers that have executed MarkAsUsed. -/
def didMark : ThreadState → Bool
  | .ts7 | .ts8 | .done .success => true
  | _ => false

/-- Handlers that have executed the business action (created the
response row). -/
def didCreate : ThreadState → Bool
  | .ts6 | .ts7 | .ts8 | .done .success => true
  | _ => false

def isDone : ThreadState → Bool
  | .done _ => true
  | _ => false

def succCard {n : Nat} (s : GState n) : Nat :=
  (Finset.univ.filter (fun i => didMark (s.th i) = true)).card

def createCard {n : Nat} (s : GState n) : Nat :=
  (Finset.univ.filter (fun i => didCreate (s.th i) = true)).card

def winCard {n : Nat} (s : GState n) : Nat :=
  (Finset.univ.filter (fun i => s.th i = .done .success)).card

theorem inCS_not_done : ∀ t, inCS t = true → isDone t = false := by
  intro t
  cases t <;> simp [inCS, isDone]

theorem done_cases : ∀ t, isDone t = true →
    t = .done .success ∨ t = .done .alreadyUsed ∨ t = .done .concurrent := by
  intro t
  cases t with
  | done o => cases o <;> simp
  | _ => simp [isDone]

theorem card_filter_update {n : Nat} (p : ThreadState → Bool) (th : Fin n → ThreadState)
    (i : Fin n) (v : ThreadState) :
    (Finset.univ.filter (fun j => p (Function.update th i v j) = true)).card
      + (if p (th i) = true then 1 else 0)
    = (Finset.univ.filter (fun j => p (th j) = true)).card + (if p v = true then 1 else 0) := by
  classical
  rw [Finset.card_filter, Finset.card_filter,
    ← Finset.add_sum_erase _ _ (Finset.mem_univ i),
    ← Finset.add_sum_erase _ _ (Finset.mem_univ i)]
  have hsum : (∑ j ∈ Finset.univ.erase i, if p (Function.update th i v j) = true then 1 else 0)
      = ∑ j ∈ Finset.univ.erase i, if p (th j) = true then 1 else 0 := by
    refine Finset.sum_congr rfl (fun j hj => ?_)
    rw [Function.update_noteq (Finset.ne_of_mem_erase hj)]
  rw [hsum, Function.update_same]
  omega

theorem card_filter_update_eq {n : Nat} (p : ThreadState → Bool) (th : Fin n → ThreadState)
    (i : Fin n) (v : ThreadState) (h : p (th i) = p v) :
    (Finset.univ.filter (fun j => p (Function.update th i v j) = true)).card
      = (Finset.univ.filter (fun j => p (th j) = true)).card := by
  have := card_filter_update p th i v
  rw [h] at this
  omega

theorem card_filter_update_succ {n : Nat} (p : ThreadState → Bool) (th : Fin n → ThreadState)
    (i : Fin n) (v : ThreadState) (h1 : p (th i) = false) (h2 : p v = true) :
    (Finset.univ.filter (fun j => p (Function.update th i v j) = true)).card
      = (Finset.univ.filter (fun j => p (th j) = true)).card + 1 := by
  have := card_filter_update p th i v
  rw [h1, h2] at this
  simp at this
  omega

theorem card_filter_pos {n : Nat} (p : ThreadState → Bool) (th : Fin n → ThreadState)
    (i : Fin n) (h : p (th i) = true) :
    1 ≤ (Finset.univ.filter (fun j => p (th j) = true)).card := by
  refine Finset.card_pos.mpr ⟨i, ?_⟩
  simp [Finset.mem_filter, h]

/-- The inductive invariant of the system: the lock witnesses exactly
the handlers inside the critical section; a handler between the unused
read and MarkAsUsed certifies used=false; used=true exactly when one
handler marked; the response count equals the handlers past the business
action; the cache and the rejected handlers certify used=true; and a
fully finished system has a winner. -/
structure Inv {n : Nat} (s : GState n) : Prop where
  lock_cs : ∀ i, inCS (s.th i) = true → s.lock = some i
  cs_lock : ∀ i, s.lock = some i → inCS (s.th i) = true
  pre_used : ∀ i, (s.th i = .ts5 ∨ s.th i = .ts6) → s.used = false
  used_succ : s.used = true ↔ succCard s = 1
  succ_le : succCard s ≤ 1
  resp : s.responses = createCard s
  cache_used : s.cacheUsed = some true → s.used = true
  lau_used : ∀ i, (s.th i = .ts3 ∨ s.th i = .ts4 ∨ s.th i = .done .alreadyUsed) → s.used = true
  all_done : 0 < n → (∀ i, isDone (s.th i) = true) → 1 ≤ succCard s

theorem succCard_init (n : Nat) : succCard (initState n) = 0 := by
  simp [succCard, initState, didMark]

theorem inv_init (n : Nat) : Inv (initState n) := by
  refine ⟨?_, ?_, ?_, ?_, ?_, ?_, ?_, ?_, ?_⟩
  · intro i h
    simp [initState, inCS] at h
  · intro i h
    simp [initState] at h
  · intro i h
    rcases h with h | h <;> cases h
  · rw [succCard_init]
    simp [initState]
  · rw [succCard_init]
    omega
  · simp [initState, createCard, didCreate]
  · intro h
    simp [initState] at h
  · intro i h
    rcases h with h | h | h <;> cases h
  · intro hn hall
    have := hall ⟨0, hn⟩
    simp [initState, isDone] at this

theorem update_forall {n : Nat} (P : ThreadState → Prop) (C : Fin n → Prop)
    {th : Fin n → ThreadState} {i : Fin n} {v : ThreadState}
    (hnew : P v → C i) (hold : ∀ j, j ≠ i → P (th j) → C j) :
    ∀ j, P (Function.update th i v j) → C j := by
  intro j hj
  rcases eq_or_ne j i with rfl | hne
  · rw [Function.update_same] at hj
    exact hnew hj
  · rw [Function.update_noteq hne] at hj
    exact hold j hne hj

theorem inv_ts0_hit {n : Nat} {s : GState n} {i : Fin n} (hinv : Inv s)
    (hti : s.th i = .ts0) (hc : s.cacheUsed = some true) :
    Inv { s with th := Function.update s.th i (.done .alreadyUsed) } := by
  have hused : s.used = true := hinv.cache_used hc
  have hsucc : succCard { s with th := Function.update s.th i (.done .alreadyUsed) }
      = succCard s :=
    card_filter_update_eq didMark s.th i _ (by rw [hti]; rfl)
  have hcreate : createCard { s with th := Function.update s.th i (.done .alreadyUsed) }
      = createCard s :=
    card_filter_update_eq didCreate s.th i _ (by rw [hti]; rfl)
  refine ⟨?_, ?_, ?_, ?_, ?_, ?_, ?_, ?_, ?_⟩
  · exact update_forall (fun t => inCS t = true) (fun j => s.lock = some j)
      (fun h => by simp [inCS] at h) (fun j _ hj => hinv.lock_cs j hj)
  · intro j hj
    have h1 := hinv.cs_lock j hj
    show inCS (Function.update s.th i (ThreadState.done .alreadyUsed) j) = true
    rcases eq_or_ne j i with rfl | hne
    · rw [hti] at h1
      simp [inCS] at h1
    · rw [Function.update_noteq hne]
      exact h1
  · exact update_forall (fun t => t = .ts5 ∨ t = .ts6) (fun _ => s.used = false)
      (fun h => by rcases h with h | h <;> cases h)
      (fun j _ hj => hinv.pre_used j hj)
  · rw [hsucc]
    exact hinv.used_succ
  · rw [hsucc]
    exact hinv.succ_le
  · rw [hcreate]
    exact hinv.resp
  · exact hinv.cache_used
  · exact update_forall (fun t => t = .ts3 ∨ t = .ts4 ∨ t = .done .alreadyUsed)
      (fun _ => s.used = true)
      (fun _ => hused) (fun j _ hj => hinv.lau_used j hj)
  · intro hn _
    rw [hsucc]
    have h1 := hinv.used_succ.mp hused
    omega

theorem inv_ts0_miss {n : Nat} {s : GState n} {i : Fin n} (hinv : Inv s)
    (hti : s.th i = .ts0) :
    Inv { s with th := Function.update s.th i .ts1 } := by
  have hsucc : succCard { s with th := Function.update s.th i .ts1 } = succCard s :=
    card_filter_update_eq didMark s.th i _ (by rw [hti]; rfl)
  have hcreate : createCard { s with th := Function.update s.th i .ts1 } = createCard s :=
    card_filter_update_eq didCreate s.th i _ (by rw [hti]; rfl)
  refine ⟨?_, ?_, ?_, ?_, ?_, ?_, ?_, ?_, ?_⟩
  · exact update_forall (fun t => inCS t = true) (fun j => s.lock = some j)
      (fun h => by simp [inCS] at h) (fun j _ hj => hinv.lock_cs j hj)
  · intro j hj
    have h1 := hinv.cs_lock j hj
    show inCS (Function.update s.th i ThreadState.ts1 j) = true
    rcases eq_or_ne j i with rfl | hne
    · rw [hti] at h1
      simp [inCS] at h1
    · rw [Function.update_noteq hne]
      exact h1
  · exact update_forall (fun t => t = .ts5 ∨ t = .ts6) (fun _ => s.used = false)
      (fun h => by rcases h with h | h <;> cases h)
      (fun j _ hj => hinv.pre_used j hj)
  · rw [hsucc]
    exact hinv.used_succ
  · rw [hsucc]
    exact hinv.succ_le
  · rw [hcreate]
    exact hinv.resp
  · exact hinv.cache_used
  · exact update_forall (fun t => t = .ts3 ∨ t = .ts4 ∨ t = .done .alreadyUsed)
      (fun _ => s.used = true)
      (fun h => by rcases h with h | h | h <;> cases h)
      (fun j _ hj => hinv.lau_used j hj)
  · intro hn hall
    have hdi : isDone (Function.update s.th i ThreadState.ts1 i) = true := hall i
    rw [Function.update_same] at hdi
    simp [isDone] at hdi

theorem inv_ts1_acq {n : Nat} {s : GState n} {i : Fin n} (hinv : Inv s)
    (hti : s.th i = .ts1) (hl : s.lock = none) :
    Inv { s with lock := some i, th := Function.update s.th i .ts2 } := by
  have hsucc : succCard { s with lock := some i, th := Function.update s.th i .ts2 }
      = succCard s :=
    card_filter_update_eq didMark s.th i _ (by rw [hti]; rfl)
  have hcreate : createCard { s with lock := some i, th := Function.update s.th i .ts2 }
      = createCard s :=
    card_filter_update_eq didCreate s.th i _ (by rw [hti]; rfl)
  refine ⟨?_, ?_, ?_, ?_, ?_, ?_, ?_, ?_, ?_⟩
  · exact update_forall (fun t => inCS t = true) (fun j => (some i : Option (Fin n)) = some j)
      (fun _ => rfl)
      (fun j _ hj => by
        have hcontra := hinv.lock_cs j hj
        rw [hl] at hcontra
        cases hcontra)
  · intro j hj
    have hij : i = j := Option.some.inj hj
    subst hij
    show inCS (Function.update s.th i ThreadState.ts2 i) = true
    rw [Function.update_same]
    rfl
  · exact update_forall (fun t => t = .ts5 ∨ t = .ts6) (fun _ => s.used = false)
      (fun h => by rcases h with h | h <;> cases h)
      (fun j _ hj => hinv.pre_used j hj)
  · rw [hsucc]
    exact hinv.used_succ
  · rw [hsucc]
    exact hinv.succ_le
  · rw [hcreate]
    exact hinv.resp
  · exact hinv.cache_used
  · exact update_forall (fun t => t = .ts3 ∨ t = .ts4 ∨ t = .done .alreadyUsed)
      (fun _ => s.used = true)
      (fun h => by rcases h with h | h | h <;> cases h)
      (fun j _ hj => hinv.lau_used j hj)
  · intro hn hall
    have hdi : isDone (Function.update s.th i ThreadState.ts2 i) = true := hall i
    rw [Function.update_same] at hdi
    simp [isDone] at hdi

theorem inv_ts1_busy {n : Nat} {s : GState n} {i : Fin n} (hinv : Inv s)
    (hti : s.th i = .ts1) (k : Fin n) (hl : s.lock = some k) :
    Inv { s with th := Function.update s.th i (.done .concurrent) } := by
  have hki : inCS (s.th k) = true := hinv.cs_lock k hl
  have hkne : k ≠ i := by
    intro hk
    rw [hk, hti] at hki
    simp [inCS] at hki
  have hsucc : succCard { s with th := Function.update s.th i (.done .concurrent) }
      = succCard s :=
    card_filter_update_eq didMark s.th i _ (by rw [hti]; rfl)
  have hcreate : createCard { s with th := Function.update s.th i (.done .concurrent) }
      = createCard s :=
    card_filter_update_eq didCreate s.th i _ (by rw [hti]; rfl)
  refine ⟨?_, ?_, ?_, ?_, ?_, ?_, ?_, ?_, ?_⟩
  · exact update_forall (fun t => inCS t = true) (fun j => s.lock = some j)
      (fun h => by simp [inCS] at h) (fun j _ hj => hinv.lock_cs j hj)
  · intro j hj
    have h1 := hinv.cs_lock j hj
    show inCS (Function.update s.th i (ThreadState.done .concurrent) j) = true
    rcases eq_or_ne j i with rfl | hne
    · rw [hti] at h1
      simp [inCS] at h1
    · rw [Function.update_noteq hne]
      exact h1
  · exact update_forall (fun t => t = .ts5 ∨ t = .ts6) (fun _ => s.used = false)
      (fun h => by rcases h with h | h <;> cases h)
      (fun j _ hj => hinv.pre_used j hj)
  · rw [hsucc]
    exact hinv.used_succ
  · rw [hsucc]
    exact hinv.succ_le
  · rw [hcreate]
    exact hinv.resp
  · exact hinv.cache_used
  · exact update_forall (fun t => t = .ts3 ∨ t = .ts4 ∨ t = .done .alreadyUsed)
      (fun _ => s.used = true)
      (fun h => by rcases h with h | h | h <;> cases h)
      (fun j _ hj => hinv.lau_used j hj)
  · intro hn hall
    have hdk : isDone (Function.update s.th i (ThreadState.done .concurrent) k) = true := hall k
    rw [Function.update_noteq hkne] at hdk
    have hc2 := inCS_not_done _ hki
    rw [hdk] at hc2
    cases hc2

theorem inv_ts2_used {n : Nat} {s : GState n} {i : Fin n} (hinv : Inv s)
    (hti : s.th i = .ts2) (hu : s.used = true) :
    Inv { s with th := Function.update s.th i .ts3 } := by
  have hlock : s.lock = some i := hinv.lock_cs i (by rw [hti]; rfl)
  have hsucc : succCard { s with th := Function.update s.th i .ts3 } = succCard s :=
    card_filter_update_eq didMark s.th i _ (by rw [hti]; rfl)
  have hcreate : createCard { s with th := Function.update s.th i .ts3 } = createCard s :=
    card_filter_update_eq didCreate s.th i _ (by rw [hti]; rfl)
  refine ⟨?_, ?_, ?_, ?_, ?_, ?_, ?_, ?_, ?_⟩
  · exact update_forall (fun t => inCS t = true) (fun j => s.lock = some j)
      (fun _ => hlock) (fun j _ hj => hinv.lock_cs j hj)
  · intro j hj
    have h1 := hinv.cs_lock j hj
    show inCS (Function.update s.th i ThreadState.ts3 j) = true
    rcases eq_or_ne j i with rfl | hne
    · rw [Function.update_same]
      rfl
    · rw [Function.update_noteq hne]
      exact h1
  · exact update_forall (fun t => t = .ts5 ∨ t = .ts6) (fun _ => s.used = false)
      (fun h => by rcases h with h | h <;> cases h)
      (fun j _ hj => hinv.pre_used j hj)
  · rw [hsucc]
    exact hinv.used_succ
  · rw [hsucc]
    exact hinv.succ_le
  · rw [hcreate]
    exact hinv.resp
  · exact hinv.cache_used
  · exact update_forall (fun t => t = .ts3 ∨ t = .ts4 ∨ t = .done .alreadyUsed)
      (fun _ => s.used = true)
      (fun _ => hu) (fun j _ hj => hinv.lau_used j hj)
  · intro hn hall
    have hdi : isDone (Function.update s.th i ThreadState.ts3 i) = true := hall i
    rw [Function.update_same] at hdi
    simp [isDone] at hdi

theorem inv_ts2_unused {n : Nat} {s : GState n} {i : Fin n} (hinv : Inv s)
    (hti : s.th i = .ts2) (hu : s.used = false) :
    Inv { s with th := Function.update s.th i .ts5 } := by
  have hlock : s.lock = some i := hinv.lock_cs i (by rw [hti]; rfl)
  have hsucc : succCard { s with th := Function.update s.th i .ts5 } = succCard s :=
    card_filter_update_eq didMark s.th i _ (by rw [hti]; rfl)
  have hcreate : createCard { s with th := Function.update s.th i .ts5 } = createCard s :=
    card_filter_update_eq didCreate s.th i _ (by rw [hti]; rfl)
  refine ⟨?_, ?_, ?_, ?_, ?_, ?_, ?_, ?_, ?_⟩
  · exact update_forall (fun t => inCS t = true) (fun j => s.lock = some j)
      (fun _ => hlock) (fun j _ hj => hinv.lock_cs j hj)
  · intro j hj
    have h1 := hinv.cs_lock j hj
    show inCS (Function.update s.th i ThreadState.ts5 j) = true
    rcases eq_or_ne j i with rfl | hne
    · rw [Function.update_same]
      rfl
    · rw [Function.update_noteq hne]
      exact h1
  · exact update_forall (fun t => t = .ts5 ∨ t = .ts6) (fun _ => s.used = false)
      (fun _ => hu) (fun j _ hj => hinv.pre_used j hj)
  · rw [hsucc]
    exact hinv.used_succ
  · rw [hsucc]
    exact hinv.succ_le
  · rw [hcreate]
    exact hinv.resp
  · exact hinv.cache_used
  · exact update_forall (fun t => t = .ts3 ∨ t = .ts4 ∨ t = .done .alreadyUsed)
      (fun _ => s.used = true)
      (fun h => by rcases h with h | h | h <;> cases h)
      (fun j _ hj => hinv.lau_used j hj)
  · intro hn hall
    have hdi : isDone (Function.update s.th i ThreadState.ts5 i) = true := hall i
    rw [Function.update_same] at hdi
    simp [isDone] at hdi

theorem inv_ts3 {n : Nat} {s : GState n} {i : Fin n} (hinv : Inv s)
    (hti : s.th i = .ts3) :
    Inv { s with cacheUsed := some true, th := Function.update s.th i .ts4 } := by
  have hused : s.used = true := hinv.lau_used i (Or.inl hti)
  have hlock : s.lock = some i := hinv.lock_cs i (by rw [hti]; rfl)
  have hsucc : succCard { s with cacheUsed := some true, th := Function.update s.th i .ts4 }
      = succCard s :=
    card_filter_update_eq didMark s.th i _ (by rw [hti]; rfl)
  have hcreate : createCard { s with cacheUsed := some true, th := Function.update s.th i .ts4 }
      = createCard s :=
    card_filter_update_eq didCreate s.th i _ (by rw [hti]; rfl)
  refine ⟨?_, ?_, ?_, ?_, ?_, ?_, ?_, ?_, ?_⟩
  · exact update_forall (fun t => inCS t = true) (fun j => s.lock = some j)
      (fun _ => hlock) (fun j _ hj => hinv.lock_cs j hj)
  · intro j hj
    have h1 := hinv.cs_lock j hj
    show inCS (Function.update s.th i ThreadState.ts4 j) = true
    rcases eq_or_ne j i with rfl | hne
    · rw [Function.update_same]
      rfl
    · rw [Function.update_noteq hne]
      exact h1
  · exact update_forall (fun t => t = .ts5 ∨ t = .ts6) (fun _ => s.used = false)
      (fun h => by rcases h with h | h <;> cases h)
      (fun j _ hj => hinv.pre_used j hj)
  · rw [hsucc]
    exact hinv.used_succ
  · rw [hsucc]
    exact hinv.succ_le
  · rw [hcreate]
    exact hinv.resp
  · exact fun _ => hused
  · exact update_forall (fun t => t = .ts3 ∨ t = .ts4 ∨ t = .done .alreadyUsed)
      (fun _ => s.used = true)
      (fun _ => hused) (fun j _ hj => hinv.lau_used j hj)
  · intro hn hall
    have hdi : isDone (Function.update s.th i ThreadState.ts4 i) = true := hall i
    rw [Function.update_same] at hdi
    simp [isDone] at hdi

theorem inv_ts4 {n : Nat} {s : GState n} {i : Fin n} (hinv : Inv s)
    (hti : s.th i = .ts4) :
    Inv { s with lock := none, th := Function.update s.th i (.done .alreadyUsed) } := by
  have hused : s.used = true := hinv.lau_used i (Or.inr (Or.inl hti))
  have hlocki : s.lock = some i := hinv.lock_cs i (by rw [hti]; rfl)
  have hsucc : succCard { s with lock := none, th := Function.update s.th i (.done .alreadyUsed) }
      = succCard s :=
    card_filter_update_eq didMark s.th i _ (by rw [hti]; rfl)
  have hcreate :
      createCard { s with lock := none, th := Function.update s.th i (.done .alreadyUsed) }
        = createCard s :=
    card_filter_update_eq didCreate s.th i _ (by rw [hti]; rfl)
  refine ⟨?_, ?_, ?_, ?_, ?_, ?_, ?_, ?_, ?_⟩
  · intro j hj
    exfalso
    have hj' : inCS (Function.update s.th i (ThreadState.done .alreadyUsed) j) = true := hj
    rcases eq_or_ne j i with rfl | hne
    · rw [Function.update_same] at hj'
      simp [inCS] at hj'
    · rw [Function.update_noteq hne] at hj'
      have h2 := hinv.lock_cs j hj'
      rw [hlocki] at h2
      exact hne (Option.some.inj h2).symm
  · intro j hj
    exact Option.noConfusion hj
  · exact update_forall (fun t => t = .ts5 ∨ t = .ts6) (fun _ => s.used = false)
      (fun h => by rcases h with h | h <;> cases h)
      (fun j _ hj => hinv.pre_used j hj)
  · rw [hsucc]
    exact hinv.used_succ
  · rw [hsucc]
    exact hinv.succ_le
  · rw [hcreate]
    exact hinv.resp
  · exact hinv.cache_used
  · exact update_forall (fun t => t = .ts3 ∨ t = .ts4 ∨ t = .done .alreadyUsed)
      (fun _ => s.used = true)
      (fun _ => hused) (fun j _ hj => hinv.lau_used j hj)
  · intro hn _
    rw [hsucc]
    have h1 := hinv.used_succ.mp hused
    omega

theorem inv_ts5 {n : Nat} {s : GState n} {i : Fin n} (hinv : Inv s)
    (hti : s.th i = .ts5) :
    Inv { s with responses := s.responses + 1, th := Function.update s.th i .ts6 } := by
  have husedf : s.used = false := hinv.pre_used i (Or.inl hti)
  have hlock : s.lock = some i := hinv.lock_cs i (by rw [hti]; rfl)
  have hsucc :
      succCard { s with responses := s.responses + 1, th := Function.update s.th i .ts6 }
        = succCard s :=
    card_filter_update_eq didMark s.th i _ (by rw [hti]; rfl)
  have hcreate :
      createCard { s with responses := s.responses + 1, th := Function.update s.th i .ts6 }
        = createCard s + 1 :=
    card_filter_update_succ didCreate s.th i _ (by rw [hti]; rfl) rfl
  refine ⟨?_, ?_, ?_, ?_, ?_, ?_, ?_, ?_, ?_⟩
  · exact update_forall (fun t => inCS t = true) (fun j => s.lock = some j)
      (fun _ => hlock) (fun j _ hj => hinv.lock_cs j hj)
  · intro j hj
    have h1 := hinv.cs_lock j hj
    show inCS (Function.update s.th i ThreadState.ts6 j) = true
    rcases eq_or_ne j i with rfl | hne
    · rw [Function.update_same]
      rfl
    · rw [Function.update_noteq hne]
      exact h1
  · exact update_forall (fun t => t = .ts5 ∨ t = .ts6) (fun _ => s.used = false)
      (fun _ => husedf) (fun j _ hj => hinv.pre_used j hj)
  · rw [hsucc]
    exact hinv.used_succ
  · rw [hsucc]
    exact hinv.succ_le
  · show s.responses + 1
        = createCard { s with responses := s.responses + 1, th := Function.update s.th i .ts6 }
    rw [hcreate, hinv.resp]
  · exact hinv.cache_used
  · exact update_forall (fun t => t = .ts3 ∨ t = .ts4 ∨ t = .done .alreadyUsed)
      (fun _ => s.used = true)
      (fun h => by rcases h with h | h | h <;> cases h)
      (fun j _ hj => hinv.lau_used j hj)
  · intro hn hall
    have hdi : isDone (Function.update s.th i ThreadState.ts6 i) = true := hall i
    rw [Function.update_same] at hdi
    simp [isDone] at hdi

theorem inv_ts6 {n : Nat} {s : GState n} {i : Fin n} (hinv : Inv s)
    (hti : s.th i = .ts6) :
    Inv { s with used := true, th := Function.update s.th i .ts7 } := by
  have husedf : s.used = false := hinv.pre_used i (Or.inr hti)
  have hlock : s.lock = some i := hinv.lock_cs i (by rw [hti]; rfl)
  have hsucc0 : succCard s = 0 := by
    have h1 := hinv.succ_le
    have h2 : ¬succCard s = 1 := by
      intro h
      have := hinv.used_succ.mpr h
      rw [husedf] at this
      cases this
    omega
  have hsucc' : succCard { s with used := true, th := Function.update s.th i .ts7 }
      = succCard s + 1 :=
    card_filter_update_succ didMark s.th i _ (by rw [hti]; rfl) rfl
  have hcreate : createCard { s with used := true, th := Function.update s.th i .ts7 }
      = createCard s :=
    card_filter_update_eq didCreate s.th i _ (by rw [hti]; rfl)
  refine ⟨?_, ?_, ?_, ?_, ?_, ?_, ?_, ?_, ?_⟩
  · exact update_forall (fun t => inCS t = true) (fun j => s.lock = some j)
      (fun _ => hlock) (fun j _ hj => hinv.lock_cs j hj)
  · intro j hj
    have h1 := hinv.cs_lock j hj
    show inCS (Function.update s.th i ThreadState.ts7 j) = true
    rcases eq_or_ne j i with rfl | hne
    · rw [Function.update_same]
      rfl
    · rw [Function.update_noteq hne]
      exact h1
  · intro j hj
    exfalso
    have hj' : Function.update s.th i ThreadState.ts7 j = .ts5 ∨
        Function.update s.th i ThreadState.ts7 j = .ts6 := hj
    rcases eq_or_ne j i with rfl | hne
    · rw [Function.update_same] at hj'
      rcases hj' with h | h <;> cases h
    · rw [Function.update_noteq hne] at hj'
      have hcs : inCS (s.th j) = true := by
        rcases hj' with h | h <;> rw [h] <;> rfl
      have h2 := hinv.lock_cs j hcs
      rw [hlock] at h2
      exact hne (Option.some.inj h2).symm
  · rw [hsucc', hsucc0]
    simp
  · rw [hsucc', hsucc0]
  · rw [hcreate]
    exact hinv.resp
  · exact fun _ => rfl
  · exact fun j _ => rfl
  · intro hn hall
    have hdi : isDone (Function.update s.th i ThreadState.ts7 i) = true := hall i
    rw [Function.update_same] at hdi
    simp [isDone] at hdi

theorem inv_ts7 {n : Nat} {s : GState n} {i : Fin n} (hinv : Inv s)
    (hti : s.th i = .ts7) :
    Inv { s with cacheUsed := some true, th := Function.update s.th i .ts8 } := by
  have hmark : didMark (s.th i) = true := by rw [hti]; rfl
  have hsucc1 : succCard s = 1 :=
    le_antisymm hinv.succ_le (card_filter_pos didMark s.th i hmark)
  have hused : s.used = true := hinv.used_succ.mpr hsucc1
  have hlock : s.lock = some i := hinv.lock_cs i (by rw [hti]; rfl)
  have hsucc : succCard { s with cacheUsed := some true, th := Function.update s.th i .ts8 }
      = succCard s :=
    card_filter_update_eq didMark s.th i _ (by rw [hti]; rfl)
  have hcreate : createCard { s with cacheUsed := some true, th := Function.update s.th i .ts8 }
      = createCard s :=
    card_filter_update_eq didCreate s.th i _ (by rw [hti]; rfl)
  refine ⟨?_, ?_, ?_, ?_, ?_, ?_, ?_, ?_, ?_⟩
  · exact update_forall (fun t => inCS t = true) (fun j => s.lock = some j)
      (fun _ => hlock) (fun j _ hj => hinv.lock_cs j hj)
  · intro j hj
    have h1 := hinv.cs_lock j hj
    show inCS (Function.update s.th i ThreadState.ts8 j) = true
    rcases eq_or_ne j i with rfl | hne
    · rw [Function.update_same]
      rfl
    · rw [Function.update_noteq hne]
      exact h1
  · exact update_forall (fun t => t = .ts5 ∨ t = .ts6) (fun _ => s.used = false)
      (fun h => by rcases h with h | h <;> cases h)
      (fun j _ hj => hinv.pre_used j hj)
  · rw [hsucc]
    exact hinv.used_succ
  · rw [hsucc]
    exact hinv.succ_le
  · rw [hcreate]
    exact hinv.resp
  · exact fun _ => hused
  · exact update_forall (fun t => t = .ts3 ∨ t = .ts4 ∨ t = .done .alreadyUsed)
      (fun _ => s.used = true)
      (fun h => by rcases h with h | h | h <;> cases h)
      (fun j _ hj => hinv.lau_used j hj)
  · intro hn hall
    have hdi : isDone (Function.update s.th i ThreadState.ts8 i) = true := hall i
    rw [Function.update_same] at hdi
    simp [isDone] at hdi

theorem inv_ts8 {n : Nat} {s : GState n} {i : Fin n} (hinv : Inv s)
    (hti : s.th i = .ts8) :
    Inv { s with lock := none, th := Function.update s.th i (.done .success) } := by
  have hmark : didMark (s.th i) = true := by rw [hti]; rfl
  have hsucc1 : succCard s = 1 :=
    le_antisymm hinv.succ_le (card_filter_pos didMark s.th i hmark)
  have hused : s.used = true := hinv.used_succ.mpr hsucc1
  have hlocki : s.lock = some i := hinv.lock_cs i (by rw [hti]; rfl)
  have hsucc : succCard { s with lock := none, th := Function.update s.th i (.done .success) }
      = succCard s :=
    card_filter_update_eq didMark s.th i _ (by rw [hti]; rfl)
  have hcreate :
      createCard { s with lock := none, th := Function.update s.th i (.done .success) }
        = createCard s :=
    card_filter_update_eq didCreate s.th i _ (by rw [hti]; rfl)
  refine ⟨?_, ?_, ?_, ?_, ?_, ?_, ?_, ?_, ?_⟩
  · intro j hj
    exfalso
    have hj' : inCS (Function.update s.th i (ThreadState.done .success) j) = true := hj
    rcases eq_or_ne j i with rfl | hne
    · rw [Function.update_same] at hj'
      simp [inCS] at hj'
    · rw [Function.update_noteq hne] at hj'
      have h2 := hinv.lock_cs j hj'
      rw [hlocki] at h2
      exact hne (Option.some.inj h2).symm
  · intro j hj
    exact Option.noConfusion hj
  · exact update_forall (fun t => t = .ts5 ∨ t = .ts6) (fun _ => s.used = false)
      (fun h => by rcases h with h | h <;> cases h)
      (fun j _ hj => hinv.pre_used j hj)
  · rw [hsucc]
    exact hinv.used_succ
  · rw [hsucc]
    exact hinv.succ_le
  · rw [hcreate]
    exact hinv.resp
  · exact fun _ => hused
  · exact update_forall (fun t => t = .ts3 ∨ t = .ts4 ∨ t = .done .alreadyUsed)
      (fun _ => s.used = true)
      (fun h => by rcases h with h | h | h <;> cases h)
      (fun j _ hj => hinv.lau_used j hj)
  · intro hn _
    rw [hsucc, hsucc1]

theorem inv_step {n : Nat} {s : GState n} (hinv : Inv s) (i : Fin n) :
    Inv (threadStep i s) := by
  cases hti : s.th i with
  | ts0 =>
    by_cases hc : s.cacheUsed = some true
    · simpa only [threadStep, hti, if_pos hc] using inv_ts0_hit hinv hti hc
    · simpa only [threadStep, hti, if_neg hc] using inv_ts0_miss hinv hti
  | ts1 =>
    cases hl : s.lock with
    | none => simpa only [threadStep, hti, hl] using inv_ts1_acq hinv hti hl
    | some k => simpa only [threadStep, hti, hl] using inv_ts1_busy hinv hti k hl
  | ts2 =>
    cases hu : s.used with
    | true => simpa only [threadStep, hti, hu] using inv_ts2_used hinv hti hu
    | false => simpa only [threadStep, hti, hu] using inv_ts2_unused hinv hti hu
  | ts3 => simpa only [threadStep, hti] using inv_ts3 hinv hti
  | ts4 => simpa only [threadStep, hti] using inv_ts4 hinv hti
  | ts5 => simpa only [threadStep, hti] using inv_ts5 hinv hti
  | ts6 => simpa only [threadStep, hti] using inv_ts6 hinv hti
  | ts7 => simpa only [threadStep, hti] using inv_ts7 hinv hti
  | ts8 => simpa only [threadStep, hti] using inv_ts8 hinv hti
  | done o => simpa only [threadStep, hti] using hinv

theorem inv_reachable {n : Nat} {s : GState n} (h : Reachable (initState n) s) : Inv s := by
  unfold Reachable at h
  induction h with
  | refl => exact inv_init n
  | tail hab hbc ih =>
    obtain ⟨i, rfl⟩ := hbc
    exact inv_step ih i


/-- C1.  For a token issued exactly once and any N ≥ 2 concurrent
SubmitResponse attempts on it (modelled by the interleaving of the
per-handler atomic steps of response.go over the shared used flag,
status cache, distributed lock and response store, with collaborators
succeeding and the lock lease outliving the critical section), every
completed execution has exactly one attempt that succeeds, the business
action (response-row creation) executed exactly once, and every other
attempt finished with ConcurrentSubmission or LinkAlreadyUsed. -/
theorem C1_exactly_once {n : Nat} (hn : 2 ≤ n) (s : GState n)
    (hr : Reachable (initState n) s) (hdone : ∀ i, isDone (s.th i) = true) :
    winCard s = 1 ∧ s.responses = 1 ∧
      (∀ i, s.th i = .done .success ∨ s.th i = .done .alreadyUsed ∨
        s.th i = .done .concurrent) := by
  have hinv := inv_reachable hr
  have hsucc1 : succCard s = 1 :=
    le_antisymm hinv.succ_le (hinv.all_done (by omega) hdone)
  have houtcomes : ∀ i, s.th i = .done .success ∨ s.th i = .done .alreadyUsed ∨
      s.th i = .done .concurrent := fun i => done_cases _ (hdone i)
  refine ⟨?_, ?_, houtcomes⟩
  · have heq : winCard s = succCard s := by
      unfold winCard succCard
      congr 1
      apply Finset.filter_congr
      intro i _
      rcases houtcomes i with h | h | h <;> rw [h] <;> simp [didMark]
    omega
  · have heq : createCard s = succCard s := by
      unfold createCard succCard
      congr 1
      apply Finset.filter_congr
      intro i _
      rcases houtcomes i with h | h | h <;> rw [h] <;> simp [didCreate, didMark]
    have hre := hinv.resp
    omega

/-- The final state of a two-handler run in which handler 0 executes the
whole consumption and handler 1 then hits the cache fast path. -/
def c1Final : GState 2 :=
  threadStep 1 (threadStep 0 (threadStep 0 (threadStep 0 (threadStep 0 (threadStep 0
    (threadStep 0 (threadStep 0 (initState 2))))))))

theorem c1Final_reachable : Reachable (initState 2) c1Final :=
  Relation.ReflTransGen.tail
    (Relation.ReflTransGen.tail
      (Relation.ReflTransGen.tail
        (Relation.ReflTransGen.tail
          (Relation.ReflTransGen.tail
            (Relation.ReflTransGen.tail
              (Relation.ReflTransGen.tail
                (Relation.ReflTransGen.tail Relation.ReflTransGen.refl ⟨0, rfl⟩)
                ⟨0, rfl⟩)
              ⟨0, rfl⟩)
            ⟨0, rfl⟩)
          ⟨0, rfl⟩)
        ⟨0, rfl⟩)
      ⟨0, rfl⟩)
    ⟨1, rfl⟩

/-- Witness for C1: the concrete two-handler interleaving above reaches
a completed state with exactly one winner and exactly one response row. -/
theorem C1_exactly_once_witness : winCard c1Final = 1 ∧ c1Final.responses = 1 :=
  ⟨(C1_exactly_once (by norm_num) c1Final c1Final_reachable (by decide)).1,
    (C1_exactly_once (by norm_num) c1Final c1Final_reachable (by decide)).2.1⟩

end SurveyOTAL
